import Mathlib

/-! Student record server (`studentserver.js`)

A shallow embedding of the request handlers of `studentserver.js` and of the two
helpers `readFiles` and `checkStudentExists`, with the Node.js file system calls
they make modelled over an explicit store.

Modelling decisions, each stated where it is made:

* the store is the content of the `students` directory: a list of `(file name, node)`
  pairs; a node is a readable file, a file whose read is refused, a directory or a
  dangling link. Paths are the strings the program builds
  (`"students/" + id + ".json"`) and are resolved component by component from the
  working directory, as the operating system does (`.`, `..` and repeated separators
  included). A path that leaves the `students` directory names a file the store does
  not hold: the handler's answer is then `Outcome.elsewhere`, about which nothing is
  stated;
* a file's text is represented by what `JSON.parse` makes of it (`FileText`);
  `JSON.stringify` writes any JSON value as itself except a non-finite number, which it
  writes as `null`, and `-0`, which it writes as `0`, and leaves out `undefined`
  properties;
* finite JSON numbers are exact rationals; `Infinity`, `-Infinity` and `-0`, which the
  body parser can yield, are values of their own;
* `String.prototype.toLowerCase` is a parameter of the model; `asciiLowerCase` is the
  instance used to evaluate the handlers on examples;
* the time of a request (`new Date().getTime()`) and whether the file system accepts a
  write are inputs of the handler;
* asynchronous callbacks run to completion in the order the program chains them; a
  handler ends by sending a response, by raising an exception out of its callback, or
  by returning with no response sent.
-/

namespace StudentServer

/-! ## JavaScript values -/

/-- JSON data as held in memory: what `JSON.parse` and the body parser produce.
`nonFinite` is `Infinity` or `-Infinity`, the value of a number literal too large for a
double; `negZero` is `-0`, the value of the literal `-0`; `num` is any other number. -/
inductive Json where
  | null
  | bool (b : Bool)
  | num (q : Rat)
  | nonFinite (negative : Bool)
  | negZero
  | str (s : String)
  | arr (items : List Json)
  | obj (fields : List (String × Json))
  deriving Repr

/-- A JavaScript value as read from a property or a variable; `none` is `undefined`. -/
abbrev JsVal := Option Json

/-- An object under construction in the program: properties may hold `undefined`. -/
abbrev JsObject := List (String × JsVal)

/-- The exceptions the modelled code can raise. -/
inductive JsError where
  | typeError
  | syntaxError
  | ioError
  deriving Repr, DecidableEq

/-- JavaScript truthiness (`if (x)`, `x && y`, `!x`). -/
def truthy : JsVal → Bool
  | none => false
  | some .null => false
  | some (.bool b) => b
  | some (.num q) => decide (q ≠ 0)
  | some (.nonFinite _) => true
  | some .negZero => false
  | some (.str s) => decide (s ≠ "")
  | some (.arr _) => true
  | some (.obj _) => true

/-- Property read `x.k`. On an object it is the value stored under `k`, or `undefined`;
on a string, number, boolean or array no property used by the program exists. The
program reads a property of `null` only behind a truthiness test. -/
def getProp : Json → String → JsVal
  | .obj fields, k => fields.lookup k
  | _, _ => none

mutual
/-- What `JSON.parse` reads back from the text `JSON.stringify` writes for a value: the
value itself, with every non-finite number, at any depth, replaced by `null` and every
`-0` by `0`. -/
def Json.written : Json → Json
  | .null => .null
  | .bool b => .bool b
  | .num q => .num q
  | .nonFinite _ => .null
  | .negZero => .num 0
  | .str s => .str s
  | .arr items => .arr (Json.writtenItems items)
  | .obj fields => .obj (Json.writtenFields fields)
termination_by structural v => v
/-- The elements of an array as written. -/
def Json.writtenItems : List Json → List Json
  | [] => []
  | v :: vs => v.written :: Json.writtenItems vs
termination_by structural l => l
/-- The properties of an object as written. -/
def Json.writtenFields : List (String × Json) → List (String × Json)
  | [] => []
  | (k, v) :: rest => (k, v.written) :: Json.writtenFields rest
termination_by structural l => l
end

/-- An instance of `String.prototype.toLowerCase`: the lowering of the ASCII letters,
which agrees with the method on ASCII strings. -/
def asciiLowerCase (s : String) : String := ⟨s.data.map Char.toLower⟩

/-- The call `x.toLowerCase()`: a `TypeError` unless `x` is a string. -/
def callToLowerCase (toLowerCase : String → String) : JsVal → Except JsError String
  | some (.str s) => .ok (toLowerCase s)
  | _ => .error .typeError

/-! ## The file system -/

/-- The text of a file, by what `JSON.parse` makes of it. -/
inductive FileText where
  | json (v : Json)
  | garbage (raw : String)
  deriving Repr

/-- A directory entry: a readable file, a file whose read is refused (its text is then
not part of the store), a directory, or a symbolic link whose target does not exist. -/
inductive Node where
  | file (text : FileText)
  | unreadable
  | directory
  | danglingLink
  deriving Repr

/-- The content of the `students` directory, in directory order. -/
abbrev Store := List (String × Node)

/-- The entry of the directory under a file name. -/
def Store.get? : Store → String → Option Node
  | [], _ => none
  | (k, n) :: rest, name => if k = name then some n else Store.get? rest name

/-- Replace the entry under a file name, or add it. A new entry is put at the end of
the list; where a statement depends on the place the listing gives it, it says so. -/
def Store.put : Store → String → Node → Store
  | [], name, n => [(name, n)]
  | (k, m) :: rest, name, n =>
    if k = name then (name, n) :: rest else (k, m) :: Store.put rest name n

/-- Remove the entry under a file name. -/
def Store.erase (s : Store) (name : String) : Store :=
  s.filter (fun e => decide (e.1 ≠ name))

/-- A name a directory entry can bear: not empty, not `.` or `..`, no separator. -/
def validName (name : String) : Bool :=
  decide (name.data ≠ []) && decide (name.data ≠ ['.']) && decide (name.data ≠ ['.', '.'])
    && !(name.data.contains '/')

/-- A directory holds one entry per file name, and every name is one an entry can
bear. -/
def Store.WF (s : Store) : Prop :=
  (s.map Prod.fst).Nodup ∧ ∀ name ∈ s.map Prod.fst, validName name = true

/-- The components of a path: the runs of characters between separators. -/
def segments : List Char → List (List Char)
  | [] => [[]]
  | c :: cs =>
    if c = '/' then [] :: segments cs
    else
      match segments cs with
      | [] => [[c]]
      | seg :: rest => (c :: seg) :: rest

/-- The two directories whose content path resolution knows: the working directory, of
which only the entry `students` is known, and `students` itself. -/
inductive Place where
  | cwd
  | students
  deriving Repr, DecidableEq

/-- What a path denotes: an entry of the `students` directory (present or not), nothing
(a component on the way is missing or is no directory), or a place the store does not
hold (outside `students`, or below one of its subdirectories). -/
inductive Target where
  | entry (name : String)
  | missing
  | elsewhere
  deriving Repr, DecidableEq

/-- Path resolution, component by component: an empty component and `.` stay in place,
`..` goes up, `students` is entered from the working directory, and a name inside
`students` is the target when it is the last component and must be a directory
otherwise. -/
def walk (s : Store) : Place → List (List Char) → Target
  | _, [] => .elsewhere
  | place, seg :: rest =>
    if seg = [] ∨ seg = ['.'] then walk s place rest
    else if seg = ['.', '.'] then
      match place with
      | .students => walk s .cwd rest
      | .cwd => .elsewhere
    else
      match place with
      | .cwd => if seg = "students".data then walk s .students rest else .elsewhere
      | .students =>
        match rest with
        | [] => .entry ⟨seg⟩
        | _ :: _ =>
          match s.get? ⟨seg⟩ with
          | some .directory => .elsewhere
          | _ => .missing

/-- What a relative path denotes, resolved from the working directory. -/
def resolve (s : Store) (path : String) : Target :=
  walk s .cwd (segments path.data)

/-- The call `JSON.parse(text)`. -/
def JSON.parse : FileText → Except JsError Json
  | .json v => .ok v
  | .garbage _ => .error .syntaxError

/-- The call `JSON.stringify(obj, null, 2)` on an object of the program: properties
holding `undefined` are left out, the others are written. -/
def JSON.stringify (o : JsObject) : FileText :=
  .json (.obj (o.filterMap (fun kv => kv.2.map (fun v => (kv.1, v.written)))))

/-- The result of a file system call that takes a callback: a value, the callback's
`err`, or a file the store does not hold. -/
inductive Fs (α : Type) where
  | ok (a : α)
  | err
  | elsewhere
  deriving Repr

/-- Why a synchronous computation stops: an exception, or a file the store does not
hold. -/
inductive Stop where
  | threw (e : JsError)
  | elsewhere
  deriving Repr, DecidableEq

/-- The call `fs.readFile(path, "utf8", cb)`. -/
def fs.readFile (s : Store) (path : String) : Fs FileText :=
  match resolve s path with
  | .elsewhere => .elsewhere
  | .missing => .err
  | .entry name =>
    match s.get? name with
    | some (.file t) => .ok t
    | _ => .err

/-- The call `fs.readFileSync(path, 'utf-8')`, which throws where `readFile` errs. -/
def fs.readFileSync (s : Store) (path : String) : Except Stop FileText :=
  match fs.readFile s path with
  | .ok t => .ok t
  | .err => .error (.threw .ioError)
  | .elsewhere => .error .elsewhere

/-- The call `fs.stat(path, cb)`: `ok` when the callback's `err` is `null`. It fails on
a missing entry and on a dangling link. -/
def fs.stat (s : Store) (path : String) : Fs Unit :=
  match resolve s path with
  | .elsewhere => .elsewhere
  | .missing => .err
  | .entry name =>
    match s.get? name with
    | none => .err
    | some .danglingLink => .err
    | some _ => .ok ()

/-- The call `fs.writeFile(path, str, cb)`; `accepted` says whether the file system
takes the write. It fails on a directory; a file whose read is refused stays so, whatever
is written to it; on `err` the store is as before. -/
def fs.writeFile (s : Store) (path : String) (str : FileText) (accepted : Bool) :
    Fs Store :=
  match resolve s path with
  | .elsewhere => .elsewhere
  | .missing => .err
  | .entry name =>
    match s.get? name with
    | some .directory => .err
    | some .unreadable => if accepted then .ok s else .err
    | _ => if accepted then .ok (s.put name (.file str)) else .err

/-- The call `fs.unlink(path, cb)`. It fails on a missing entry and on a directory. -/
def fs.unlink (s : Store) (path : String) : Fs Store :=
  match resolve s path with
  | .elsewhere => .elsewhere
  | .missing => .err
  | .entry name =>
    match s.get? name with
    | none => .err
    | some .directory => .err
    | some _ => .ok (s.erase name)

/-- The call `fs.readdirSync(dir)`: the file names of the directory. -/
def fs.readdirSync (s : Store) (dir : String) : Except Stop (List String) :=
  if dir = "students" then .ok (s.map Prod.fst) else .error .elsewhere

/-- Whether a file name matches `*.json`: it ends in `.json`, does not start with
a dot and holds no path separator. -/
def globMatch (name : String) : Bool :=
  ".json".data.isSuffixOf name.data && (name.data.head? != some '.')
    && !(name.data.contains '/')

/-- The call `glob("students/*.json", null, cb)`: the paths of the matching entries.
The order of the result stands for whatever order the library yields. -/
def glob (s : Store) : List String :=
  ((s.map Prod.fst).filter globMatch).map (fun name => "students/" ++ name)

/-! ## Responses -/

/-- What `res.send` is given: an object, sent as JSON, or the text of a file. -/
inductive Body where
  | json (v : Json)
  | text (t : FileText)
  deriving Repr

/-- How a handler ends: `res.status(code).send(body)`, an exception raised out of
the callback, a return with no response sent, or an answer that depends on a file the
store does not hold. -/
inductive Outcome where
  | sent (status : Nat) (body : Body)
  | threw (e : JsError)
  | pending
  | elsewhere
  deriving Repr

/-- How a handler ends when a synchronous computation stops. -/
def Stop.outcome : Stop → Outcome
  | .threw e => .threw e
  | .elsewhere => .elsewhere

/-! ## `checkStudentExists` -/

/-- The body of the loop of `checkStudentExists` once the file is parsed: the guard
on the stored names, then the two comparisons, left to right with `&&` cut short. -/
def checkStudentData (toLowerCase : String → String) (first_name last_name : JsVal)
    (studentData : Json) : Except JsError Bool :=
  if truthy (some studentData) && truthy (getProp studentData "first_name")
      && truthy (getProp studentData "last_name") then
    match callToLowerCase toLowerCase (getProp studentData "first_name") with
    | .error e => .error e
    | .ok a =>
      match callToLowerCase toLowerCase first_name with
      | .error e => .error e
      | .ok b =>
        if a = b then
          match callToLowerCase toLowerCase (getProp studentData "last_name") with
          | .error e => .error e
          | .ok c =>
            match callToLowerCase toLowerCase last_name with
            | .error e => .error e
            | .ok d => .ok (decide (c = d))
        else .ok false
  else .ok false

/-- One turn of the loop: read the file, parse it, compare. -/
def checkFile (toLowerCase : String → String) (first_name last_name : JsVal)
    (dir : String) (s : Store) (file : String) : Except Stop Bool :=
  match fs.readFileSync s (dir ++ "/" ++ file) with
  | .error st => .error st
  | .ok data =>
    match JSON.parse data with
    | .error e => .error (.threw e)
    | .ok studentData =>
      match checkStudentData toLowerCase first_name last_name studentData with
      | .error e => .error (.threw e)
      | .ok b => .ok b

/-- The loop `for (let file of studentFiles)` with its `return true` and the final
`return false`. -/
def checkStudentFiles (toLowerCase : String → String) (first_name last_name : JsVal)
    (dir : String) (s : Store) : List String → Except Stop Bool
  | [] => .ok false
  | file :: rest =>
    match checkFile toLowerCase first_name last_name dir s file with
    | .error st => .error st
    | .ok true => .ok true
    | .ok false => checkStudentFiles toLowerCase first_name last_name dir s rest

/-- The function `checkStudentExists(first_name, last_name, dir)`. -/
def checkStudentExists (toLowerCase : String → String) (first_name last_name : JsVal)
    (dir : String) (s : Store) : Except Stop Bool :=
  match fs.readdirSync s dir with
  | .error st => .error st
  | .ok studentFiles => checkStudentFiles toLowerCase first_name last_name dir s studentFiles

/-! ## `readFiles` -/

/-- The recursion of `readFiles` over the array used as a stack: the list given
here is the array from its last element to its first, so its head is what
`files.pop()` returns and its tail is what is left in `files`. -/
def readFilesFrom (s : Store) : List String → List Json → Outcome
  | [], _ => .pending
  | fname :: rest, arr =>
    if fname = "" then .pending
    else
      match fs.readFile s fname with
      | .elsewhere => .elsewhere
      | .err => .sent 500 (.json (.obj [("message", .str "error - internal server error")]))
      | .ok data =>
        match JSON.parse data with
        | .error e => .threw e
        | .ok v =>
          if rest.length = 0 then .sent 200 (.json (.obj [("students", .arr (arr ++ [v]))]))
          else readFilesFrom s rest (arr ++ [v])

/-- The function `readFiles(files, arr, res)`. -/
def readFiles (s : Store) (files : List String) (arr : List Json) : Outcome :=
  readFilesFrom s files.reverse arr

/-! ## The handlers -/

/-- The object `obj` the POST and PUT handlers build from the request body. -/
def studentObject (record_id : Json) (body : Json) : JsObject :=
  [("record_id", some record_id),
   ("first_name", getProp body "first_name"),
   ("last_name", getProp body "last_name"),
   ("gpa", getProp body "gpa"),
   ("enrolled", getProp body "enrolled")]

/-- The handler `app.post('/students')` from the callback of `fs.access` on, in its
`else` branch (the directory is there); `now` is `new Date().getTime()`. -/
def postStudents (toLowerCase : String → String) (now : Nat) (body : Json)
    (accepted : Bool) (s : Store) : Outcome × Store :=
  let record_id : Json := .num now
  let str := JSON.stringify (studentObject record_id body)
  let dir := "students"
  match checkStudentExists toLowerCase (getProp body "first_name")
      (getProp body "last_name") dir s with
  | .error st => (st.outcome, s)
  | .ok true =>
    (.sent 409 (.json (.obj [("message", .str "Student with the same name already exists")])), s)
  | .ok false =>
    match fs.writeFile s ("students/" ++ toString now ++ ".json") str accepted with
    | .elsewhere => (.elsewhere, s)
    | .err =>
      (.sent 400 (.json (.obj [("record_id", .num (-1)),
        ("message", .str "error - unable to create resource")])), s)
    | .ok s' =>
      (.sent 201 (.json (.obj [("record_id", record_id),
        ("message", .str "successfully created")])), s')

/-- The `students` directory as the POST handler finds it: absent, or present with its
content. -/
inductive Disk where
  | absent
  | present (s : Store)
  deriving Repr

/-- The handler `app.post('/students')` with its `fs.access` test. When the directory is
absent, `fs.mkdir` is started and `fs.readdirSync(dir)`, called in the same turn before
the directory is made, throws; the directory is there, empty, once `mkdir` is done. -/
def postStudentsAccess (toLowerCase : String → String) (now : Nat) (body : Json)
    (accepted : Bool) : Disk → Outcome × Disk
  | .absent => (.threw .ioError, .present [])
  | .present s =>
    ((postStudents toLowerCase now body accepted s).1,
      .present (postStudents toLowerCase now body accepted s).2)

/-- The handler `app.get('/students/:record_id')`. -/
def getStudent (record_id : String) (s : Store) : Outcome × Store :=
  match fs.readFile s ("students/" ++ record_id ++ ".json") with
  | .elsewhere => (.elsewhere, s)
  | .err =>
    (.sent 404 (.json (.obj [("record_id", .str record_id),
      ("message", .str "error - resource not found")])), s)
  | .ok data => (.sent 200 (.text data), s)

/-- The handler `app.get('/students')`, on a listing that `glob` delivers without
error: `readFiles(files, [], res)`. -/
def getStudents (s : Store) : Outcome × Store :=
  (readFiles s (glob s) [], s)

/-- The handler `app.put('/students/:record_id')`. -/
def putStudent (record_id : String) (body : Json) (accepted : Bool) (s : Store) :
    Outcome × Store :=
  let fname := "students/" ++ record_id ++ ".json"
  let str := JSON.stringify (studentObject (.str record_id) body)
  match fs.stat s fname with
  | .elsewhere => (.elsewhere, s)
  | .ok _ =>
    match fs.writeFile s ("students/" ++ record_id ++ ".json") str accepted with
    | .elsewhere => (.elsewhere, s)
    | .err =>
      (.sent 200 (.json (.obj [("record_id", .str record_id),
        ("message", .str "error - unable to update resource")])), s)
    | .ok s' =>
      (.sent 201 (.json (.obj [("record_id", .str record_id),
        ("message", .str "successfully updated")])), s')
  | .err =>
    (.sent 404 (.json (.obj [("record_id", .str record_id),
      ("message", .str "error - resource not found")])), s)

/-- The handler `app.delete('/students/:record_id')`. -/
def deleteStudent (record_id : String) (s : Store) : Outcome × Store :=
  let fname := "students/" ++ record_id ++ ".json"
  match fs.unlink s fname with
  | .elsewhere => (.elsewhere, s)
  | .err =>
    (.sent 404 (.json (.obj [("record_id", .str record_id),
      ("message", .str "error - resource not found")])), s)
  | .ok s' =>
    (.sent 200 (.json (.obj [("record_id", .str record_id),
      ("message", .str "record deleted")])), s')

/-! ## Vocabulary of the statements -/

/-- The document `JSON.parse` reads back from what the POST and PUT handlers write. -/
def storedDocument (record_id body : Json) : Json :=
  .obj ((studentObject record_id body).filterMap
    (fun kv => kv.2.map (fun v => (kv.1, v.written))))

/-- Whether a value is a string. -/
def isStr : JsVal → Bool
  | some (.str _) => true
  | _ => false

/-- A stored name the duplicate check can compare: falsy, or a string. -/
def nameOk (v : JsVal) : Bool := !truthy v || isStr v

/-- An entry the duplicate check passes over without raising, whatever string names
are asked for: a readable, parseable document whose two names are each falsy or a
string. -/
def scanSafe : Node → Bool
  | .file (.json v) => nameOk (getProp v "first_name") && nameOk (getProp v "last_name")
  | _ => false

/-- An entry that is a document with string names equal, case-insensitively, to the
given ones. -/
def hasName (toLowerCase : String → String) (first_name last_name : String) : Node → Bool
  | .file (.json v) =>
    match getProp v "first_name", getProp v "last_name" with
    | some (.str a), some (.str b) =>
      decide (toLowerCase a = toLowerCase first_name)
        && decide (toLowerCase b = toLowerCase last_name)
    | _, _ => false
  | _ => false

/-- What one turn of the loop of `checkStudentExists` makes of a directory entry. -/
def checkNode (toLowerCase : String → String) (first_name last_name : JsVal) :
    Option Node → Except Stop Bool
  | some (.file (.json v)) =>
    match checkStudentData toLowerCase first_name last_name v with
    | .error e => .error (.threw e)
    | .ok b => .ok b
  | some (.file (.garbage _)) => .error (.threw .syntaxError)
  | _ => .error (.threw .ioError)

/-- The body of every 404 response. -/
def notFoundBody (record_id : String) : Body :=
  .json (.obj [("record_id", .str record_id), ("message", .str "error - resource not found")])

/-- The body of the 409 response. -/
def conflictBody : Body :=
  .json (.obj [("message", .str "Student with the same name already exists")])

/-- The body of the 201 response of a create. -/
def createdBody (now : Nat) : Body :=
  .json (.obj [("record_id", .num now), ("message", .str "successfully created")])

/-- The body of the 201 response of an update. -/
def updatedBody (record_id : String) : Body :=
  .json (.obj [("record_id", .str record_id), ("message", .str "successfully updated")])

/-- The body of the 200 response of a delete. -/
def deletedBody (record_id : String) : Body :=
  .json (.obj [("record_id", .str record_id), ("message", .str "record deleted")])

/-- The body of the 500 response. -/
def internalErrorBody : Body :=
  .json (.obj [("message", .str "error - internal server error")])

/-- The body of the 200 response of the listing. -/
def studentsBody (arr : List Json) : Body := .json (.obj [("students", .arr arr)])

/-- The status code of the response sent, if one was sent. -/
def Outcome.status : Outcome → Option Nat
  | .sent code _ => some code
  | _ => none

/-- A path that `readFiles` reads and parses to the given document. -/
def readsAs (s : Store) (path : String) (v : Json) : Prop :=
  path ≠ "" ∧ fs.readFile s path = .ok (.json v)

/-- Sample request body: John Doe, gpa 3, enrolled. -/
def johnDoe : Json :=
  .obj [("first_name", .str "John"), ("last_name", .str "Doe"), ("gpa", .num 3),
    ("enrolled", .bool true)]

/-- Sample request body: the names of `johnDoe` in another case. -/
def johnUpper : Json :=
  .obj [("first_name", .str "JOHN"), ("last_name", .str "doe"), ("gpa", .num 2),
    ("enrolled", .bool false)]

/-- Sample request body: Jane Roe. -/
def janeRoe : Json :=
  .obj [("first_name", .str "Jane"), ("last_name", .str "Roe"), ("gpa", .num 4),
    ("enrolled", .bool true)]

/-- Sample request body with an empty first name. -/
def emptyNameBody : Json :=
  .obj [("first_name", .str ""), ("last_name", .str "Doe"), ("gpa", .num 3),
    ("enrolled", .bool true)]

/-- Sample request body whose `gpa` was sent as `1e400`, read as `Infinity`. -/
def overflowBody : Json :=
  .obj [("first_name", .str "Jane"), ("last_name", .str "Roe"), ("gpa", .nonFinite false),
    ("enrolled", .bool true)]

/-- The document created from `johnDoe` at time 1000. -/
def johnDocument : Json :=
  .obj [("record_id", .num 1000), ("first_name", .str "John"), ("last_name", .str "Doe"),
    ("gpa", .num 3), ("enrolled", .bool true)]

/-- Sample store: one document, created from `johnDoe` at time 1000. -/
def johnStore : Store :=
  [("1000.json", .file (.json (.obj [("record_id", .num 1000), ("first_name", .str "John"),
    ("last_name", .str "Doe"), ("gpa", .num 3), ("enrolled", .bool true)])))]

/-- Sample store: John Doe's document and Jane Roe's. -/
def twoStore : Store :=
  [("1000.json", .file (.json johnDocument)),
   ("2000.json", .file (.json (.obj [("record_id", .num 2000), ("first_name", .str "Jane"),
    ("last_name", .str "Roe"), ("gpa", .num 4), ("enrolled", .bool true)])))]

/-- Sample store: one document with an empty first name. -/
def emptyNameStore : Store :=
  [("1.json", .file (.json (.obj [("record_id", .num 1), ("first_name", .str ""),
    ("last_name", .str "Doe"), ("gpa", .num 3), ("enrolled", .bool true)])))]

/-- Sample store: John Doe's document after `PUT /students/1000` with the body
`{first_name: 5, last_name: "Doe"}`. -/
def numberNameStore : Store :=
  [("1000.json", .file (.json (.obj [("record_id", .str "1000"), ("first_name", .num 5),
    ("last_name", .str "Doe")])))]

/-- Sample store: one entry named like a document that is a directory. -/
def directoryStore : Store := [("7.json", .directory)]

/-- Sample store: one file whose text is not JSON. -/
def corruptStore : Store := [("1.json", .file (.garbage "not json"))]

/-- Sample store: an unreadable entry listed before a file whose text is not JSON. -/
def mixedStore : Store :=
  [("a.json", .unreadable), ("b.json", .file (.garbage "not json"))]

mutual
/-- Whether a value holds, at any depth, no number that `JSON.stringify` does not write
as it is: no `Infinity`, no `-Infinity`, no `-0`. -/
def Json.exact : Json → Bool
  | .null => true
  | .bool _ => true
  | .num _ => true
  | .nonFinite _ => false
  | .negZero => false
  | .str _ => true
  | .arr items => Json.exactItems items
  | .obj fields => Json.exactFields fields
termination_by structural v => v
/-- Whether the elements of an array are written as they are. -/
def Json.exactItems : List Json → Bool
  | [] => true
  | v :: vs => v.exact && Json.exactItems vs
termination_by structural l => l
/-- Whether the properties of an object are written as they are. -/
def Json.exactFields : List (String × Json) → Bool
  | [] => true
  | (_, v) :: rest => v.exact && Json.exactFields rest
termination_by structural l => l
end

/-! ## Paths -/

theorem segments_no_separator (cs : List Char) (h : '/' ∉ cs) : segments cs = [cs] := by
  induction cs with
  | nil => rfl
  | cons c cs ih =>
    simp only [List.mem_cons, not_or] at h
    have hc : c ≠ '/' := fun hc => h.1 hc.symm
    simp [segments, hc, ih h.2]

theorem segments_append_separator (a b : List Char) (h : '/' ∉ a) :
    segments (a ++ '/' :: b) = a :: segments b := by
  induction a with
  | nil => simp [segments]
  | cons c cs ih =>
    simp only [List.mem_cons, not_or] at h
    have hc : c ≠ '/' := fun hc => h.1 hc.symm
    simp [segments, hc, ih h.2]

theorem validName_iff (name : String) :
    validName name = true ↔
      name.data ≠ [] ∧ name.data ≠ ['.'] ∧ name.data ≠ ['.', '.'] ∧ '/' ∉ name.data := by
  simp [validName, and_assoc]

theorem resolve_entry (s : Store) (name : String) (h : validName name = true) :
    resolve s ("students/" ++ name) = .entry name := by
  obtain ⟨h1, h2, h3, h4⟩ := (validName_iff name).1 h
  have hd : ("students/" ++ name).data = "students".data ++ '/' :: name.data := by
    rw [String.data_append]
    rfl
  unfold resolve
  rw [hd, segments_append_separator _ _ (by decide), segments_no_separator _ h4]
  have hs1 : "students".data ≠ [] := by decide
  have hs2 : "students".data ≠ ['.'] := by decide
  have hs3 : "students".data ≠ ['.', '.'] := by decide
  simp [walk, hs1, hs2, hs3, h1, h2, h3]

theorem resolve_dir_file (s : Store) (file : String) (h : validName file = true) :
    resolve s ("students" ++ "/" ++ file) = .entry file :=
  resolve_entry s file h

theorem validName_record (id : String) (h : '/' ∉ id.data) :
    validName (id ++ ".json") = true := by
  rw [validName_iff, String.data_append]
  have hj : ".json".data = ['.', 'j', 's', 'o', 'n'] := rfl
  rw [hj]
  refine ⟨by simp, ?_, ?_, ?_⟩
  · intro h1
    have := congrArg List.length h1
    simp at this
  · intro h1
    have := congrArg List.length h1
    simp at this
  · simp only [List.mem_append, not_or]
    exact ⟨h, by decide⟩

theorem resolve_record (s : Store) (id : String) (h : '/' ∉ id.data) :
    resolve s ("students/" ++ id ++ ".json") = .entry (id ++ ".json") := by
  rw [String.append_assoc, resolve_entry s _ (validName_record id h)]

theorem digitChar_ne_separator (d : Nat) (h : d < 10) : Nat.digitChar d ≠ '/' := by
  interval_cases d <;> decide

theorem toDigitsCore_no_separator (fuel n : Nat) (ds : List Char) (h : '/' ∉ ds) :
    '/' ∉ Nat.toDigitsCore 10 fuel n ds := by
  induction fuel generalizing n ds with
  | zero => simpa [Nat.toDigitsCore] using h
  | succ fuel ih =>
    have hcons : '/' ∉ Nat.digitChar (n % 10) :: ds := by
      simp only [List.mem_cons, not_or]
      exact ⟨fun hc => digitChar_ne_separator _ (Nat.mod_lt _ (by decide)) hc.symm, h⟩
    simp only [Nat.toDigitsCore]
    split_ifs
    · exact hcons
    · exact ih _ _ hcons

theorem toString_no_separator (n : Nat) : '/' ∉ (toString n).data := by
  show '/' ∉ (Nat.repr n).data
  simp only [Nat.repr, List.asString, Nat.toDigits]
  exact toDigitsCore_no_separator _ _ _ (by simp)

theorem resolve_created (s : Store) (now : Nat) :
    resolve s ("students/" ++ toString now ++ ".json") = .entry (toString now ++ ".json") :=
  resolve_record s _ (toString_no_separator now)

/-! ## The store -/

theorem Store.get?_put_same (s : Store) (name : String) (n : Node) :
    (s.put name n).get? name = some n := by
  induction s with
  | nil => simp [Store.put, Store.get?]
  | cons e rest ih =>
    obtain ⟨k, m⟩ := e
    by_cases hk : k = name
    · simp [Store.put, Store.get?, hk]
    · simp [Store.put, Store.get?, hk, ih]

theorem Store.get?_put_other (s : Store) (name other : String) (n : Node) (h : other ≠ name) :
    (s.put name n).get? other = s.get? other := by
  induction s with
  | nil => simp [Store.put, Store.get?, Ne.symm h]
  | cons e rest ih =>
    obtain ⟨k, m⟩ := e
    by_cases hk : k = name
    · subst hk
      simp [Store.put, Store.get?, Ne.symm h]
    · simp [Store.put, Store.get?, hk, ih]

theorem Store.get?_erase_same (s : Store) (name : String) : (s.erase name).get? name = none := by
  induction s with
  | nil => simp [Store.erase, Store.get?]
  | cons e rest ih =>
    obtain ⟨k, m⟩ := e
    by_cases hk : k = name
    · simpa [Store.erase, hk] using ih
    · simpa [Store.erase, List.filter_cons, hk, Store.get?] using ih

theorem Store.get?_erase_other (s : Store) (name other : String) (h : other ≠ name) :
    (s.erase name).get? other = s.get? other := by
  induction s with
  | nil => simp [Store.erase, Store.get?]
  | cons e rest ih =>
    obtain ⟨k, m⟩ := e
    by_cases hk : k = name
    · subst hk
      simpa [Store.erase, Store.get?, Ne.symm h] using ih
    · by_cases ho : k = other
      · subst ho
        simp [Store.erase, List.filter_cons, h, Store.get?]
      · simpa [Store.erase, List.filter_cons, hk, Store.get?, ho] using ih

theorem Store.get?_of_mem (s : Store) (hwf : s.WF) (e : String × Node) (he : e ∈ s) :
    s.get? e.1 = some e.2 := by
  have hnd := hwf.1
  clear hwf
  induction s with
  | nil => cases he
  | cons x rest ih =>
    obtain ⟨k, m⟩ := x
    simp only [List.map_cons, List.nodup_cons] at hnd
    rcases List.mem_cons.1 he with rfl | hmem
    · simp [Store.get?]
    · have hne : k ≠ e.1 := by
        intro hk
        apply hnd.1
        rw [hk]
        exact List.mem_map_of_mem Prod.fst hmem
      simp only [Store.get?, if_neg hne]
      exact ih hmem hnd.2

theorem Store.validName_of_mem (s : Store) (hwf : s.WF) (e : String × Node) (he : e ∈ s) :
    validName e.1 = true :=
  hwf.2 e.1 (List.mem_map_of_mem Prod.fst he)

theorem Store.get?_eq_none_iff (s : Store) (k : String) :
    s.get? k = none ↔ k ∉ s.map Prod.fst := by
  induction s with
  | nil => simp [Store.get?]
  | cons x rest ih =>
    obtain ⟨k', m⟩ := x
    by_cases hk : k' = k
    · simp [Store.get?, hk]
    · simp [Store.get?, hk, ih, Ne.symm hk]

theorem Store.put_fresh (s : Store) (k : String) (n : Node) (h : s.get? k = none) :
    s.put k n = s ++ [(k, n)] := by
  induction s with
  | nil => rfl
  | cons x rest ih =>
    obtain ⟨k', m⟩ := x
    by_cases hk : k' = k
    · simp [Store.get?, hk] at h
    · simp only [Store.get?, if_neg hk] at h
      simp [Store.put, hk, ih h]

theorem Store.put_keys_of_mem (s : Store) (k : String) (n : Node) (h : k ∈ s.map Prod.fst) :
    (s.put k n).map Prod.fst = s.map Prod.fst := by
  induction s with
  | nil => simp at h
  | cons x rest ih =>
    obtain ⟨k', m⟩ := x
    by_cases hk : k' = k
    · simp [Store.put, hk]
    · have hmem : k ∈ rest.map Prod.fst := by
        simpa [Ne.symm hk] using h
      simp [Store.put, hk, ih hmem]

theorem Store.put_split (s : Store) (k : String) (n : Node) :
    ∃ pre post, s.put k n = pre ++ (k, n) :: post ∧ ∀ e ∈ pre, e ∈ s ∧ e.1 ≠ k := by
  induction s with
  | nil => exact ⟨[], [], rfl, fun e he => by cases he⟩
  | cons x rest ih =>
    obtain ⟨k', m⟩ := x
    by_cases hk : k' = k
    · exact ⟨[], rest, by simp [Store.put, hk], fun e he => by cases he⟩
    · obtain ⟨pre, post, hsplit, hpre⟩ := ih
      refine ⟨(k', m) :: pre, post, by simp [Store.put, hk, hsplit], ?_⟩
      intro e he
      rcases List.mem_cons.1 he with rfl | hmem
      · exact ⟨List.mem_cons_self _ _, hk⟩
      · exact ⟨List.mem_cons_of_mem _ (hpre e hmem).1, (hpre e hmem).2⟩

theorem Store.countP_put (p : String × Node → Bool) (s : Store) (k : String) (n : Node)
    (hs : ∀ e ∈ s, p e = false) (hn : p (k, n) = true) :
    (s.put k n).countP p = 1 := by
  induction s with
  | nil => simp [Store.put, List.countP_cons, hn]
  | cons x rest ih =>
    obtain ⟨k', m⟩ := x
    have hrest : ∀ e ∈ rest, p e = false := fun e he => hs e (List.mem_cons_of_mem _ he)
    have hx : p (k', m) = false := hs _ (List.mem_cons_self _ _)
    by_cases hk : k' = k
    · have h0 : rest.countP p = 0 := by
        rw [List.countP_eq_zero]
        intro e he
        simp [hrest e he]
      simp [Store.put, hk, List.countP_cons, hn, h0]
    · simp [Store.put, hk, List.countP_cons, hx, ih hrest]

theorem Store.put_wf (s : Store) (k : String) (n : Node) (h : s.WF) (hk : validName k = true) :
    (s.put k n).WF := by
  unfold Store.WF at *
  by_cases hmem : k ∈ s.map Prod.fst
  · rw [Store.put_keys_of_mem s k n hmem]
    exact h
  · rw [Store.put_fresh s k n ((Store.get?_eq_none_iff s k).2 hmem)]
    rw [List.map_append]
    constructor
    · rw [List.nodup_append]
      refine ⟨h.1, by simp, ?_⟩
      intro a ha hb
      simp only [List.map_cons, List.map_nil, List.mem_singleton] at hb
      exact hmem (hb ▸ ha)
    · intro name hname
      rcases List.mem_append.1 hname with h1 | h1
      · exact h.2 name h1
      · simp only [List.map_cons, List.map_nil, List.mem_singleton] at h1
        rw [h1]
        exact hk

theorem Store.erase_wf (s : Store) (k : String) (h : s.WF) : (s.erase k).WF := by
  unfold Store.WF Store.erase at *
  have hsub : List.Sublist ((List.filter (fun e => decide (e.1 ≠ k)) s).map Prod.fst)
      (s.map Prod.fst) := (List.filter_sublist s).map Prod.fst
  exact ⟨hsub.nodup h.1, fun name hname => h.2 name (hsub.subset hname)⟩

theorem johnStore_wf : johnStore.WF := by
  unfold Store.WF
  exact ⟨by decide, by decide⟩

/-! ## The document written by POST and PUT -/

mutual
theorem Json.written_of_exact : ∀ (v : Json), v.exact = true → v.written = v
  | .null, _ => rfl
  | .bool _, _ => rfl
  | .num _, _ => rfl
  | .nonFinite _, h => by simp [Json.exact] at h
  | .negZero, h => by simp [Json.exact] at h
  | .str _, _ => rfl
  | .arr items, h => by
    simp only [Json.exact] at h
    simp only [Json.written, Json.writtenItems_of_exact items h]
  | .obj fields, h => by
    simp only [Json.exact] at h
    simp only [Json.written, Json.writtenFields_of_exact fields h]
termination_by structural v => v
theorem Json.writtenItems_of_exact : ∀ (l : List Json), Json.exactItems l = true →
    Json.writtenItems l = l
  | [], _ => rfl
  | v :: vs, h => by
    simp only [Json.exactItems, Bool.and_eq_true] at h
    simp only [Json.writtenItems, Json.written_of_exact v h.1,
      Json.writtenItems_of_exact vs h.2]
termination_by structural l => l
theorem Json.writtenFields_of_exact : ∀ (l : List (String × Json)),
    Json.exactFields l = true → Json.writtenFields l = l
  | [], _ => rfl
  | (k, v) :: rest, h => by
    simp only [Json.exactFields, Bool.and_eq_true] at h
    simp only [Json.writtenFields, Json.written_of_exact v h.1,
      Json.writtenFields_of_exact rest h.2]
termination_by structural l => l
end

theorem lookup_filterMap_absent (o : JsObject) (k : String) (h : k ∉ o.map Prod.fst) :
    (o.filterMap (fun kv => kv.2.map (fun v => (kv.1, v.written)))).lookup k = none := by
  induction o with
  | nil => rfl
  | cons e rest ih =>
    obtain ⟨a, v⟩ := e
    simp only [List.map_cons, List.mem_cons, not_or] at h
    cases v with
    | none => simpa [List.filterMap_cons] using ih h.2
    | some w =>
      have hb : (k == a) = false := by simpa using h.1
      simpa [List.filterMap_cons, List.lookup_cons, hb] using ih h.2

theorem lookup_filterMap (o : JsObject) (k : String) (h : (o.map Prod.fst).Nodup) :
    (o.filterMap (fun kv => kv.2.map (fun v => (kv.1, v.written)))).lookup k
      = (o.lookup k).join.map Json.written := by
  induction o with
  | nil => rfl
  | cons e rest ih =>
    obtain ⟨a, v⟩ := e
    simp only [List.map_cons, List.nodup_cons] at h
    by_cases hk : k = a
    · subst hk
      cases v with
      | none =>
        simpa [List.filterMap_cons, List.lookup_cons] using lookup_filterMap_absent rest k h.1
      | some w => simp [List.filterMap_cons, List.lookup_cons]
    · have hb : (k == a) = false := by simpa using hk
      cases v with
      | none => simpa [List.filterMap_cons, List.lookup_cons, hb] using ih h.2
      | some w => simpa [List.filterMap_cons, List.lookup_cons, hb] using ih h.2

theorem stringify_studentObject (rid body : Json) :
    JSON.stringify (studentObject rid body) = .json (storedDocument rid body) := rfl

theorem getProp_storedDocument (rid body : Json) (k : String) :
    getProp (storedDocument rid body) k =
        if k = "record_id" then some rid.written
        else if k = "first_name" then (getProp body "first_name").map Json.written
        else if k = "last_name" then (getProp body "last_name").map Json.written
        else if k = "gpa" then (getProp body "gpa").map Json.written
        else if k = "enrolled" then (getProp body "enrolled").map Json.written
        else none := by
  have hnd : ((studentObject rid body).map Prod.fst).Nodup := by
    simp [studentObject]
  rw [storedDocument, getProp, lookup_filterMap _ _ hnd]
  simp only [studentObject, List.lookup_cons, List.lookup_nil]
  by_cases h1 : k = "record_id"
  · simp [h1]
  by_cases h2 : k = "first_name"
  · simp [h2]
  by_cases h3 : k = "last_name"
  · simp [h3]
  by_cases h4 : k = "gpa"
  · simp [h4]
  by_cases h5 : k = "enrolled"
  · simp [h5]
  have b1 : (k == "record_id") = false := by simpa using h1
  have b2 : (k == "first_name") = false := by simpa using h2
  have b3 : (k == "last_name") = false := by simpa using h3
  have b4 : (k == "gpa") = false := by simpa using h4
  have b5 : (k == "enrolled") = false := by simpa using h5
  simp [h1, h2, h3, h4, h5, b1, b2, b3, b4, b5]

theorem map_written_of_exact (x : JsVal) (h : ∀ v, x = some v → v.exact = true) :
    x.map Json.written = x := by
  cases x with
  | none => rfl
  | some v => simp [Json.written_of_exact v (h v rfl)]

/-! ## The handlers on one record -/

theorem readFile_record (s : Store) (id : String) (hid : '/' ∉ id.data) :
    fs.readFile s ("students/" ++ id ++ ".json") =
      match s.get? (id ++ ".json") with
      | some (.file t) => .ok t
      | _ => .err := by
  simp only [fs.readFile, resolve_record s id hid]

theorem getStudent_absent (s : Store) (id : String) (hid : '/' ∉ id.data)
    (h : s.get? (id ++ ".json") = none) :
    getStudent id s = (.sent 404 (notFoundBody id), s) := by
  simp [getStudent, readFile_record s id hid, h, notFoundBody]

theorem putStudent_absent (s : Store) (id : String) (body : Json) (accepted : Bool)
    (hid : '/' ∉ id.data) (h : s.get? (id ++ ".json") = none) :
    putStudent id body accepted s = (.sent 404 (notFoundBody id), s) := by
  simp [putStudent, fs.stat, resolve_record s id hid, h, notFoundBody]

theorem deleteStudent_absent (s : Store) (id : String) (hid : '/' ∉ id.data)
    (h : s.get? (id ++ ".json") = none) :
    deleteStudent id s = (.sent 404 (notFoundBody id), s) := by
  simp [deleteStudent, fs.unlink, resolve_record s id hid, h, notFoundBody]

/-- C4, amended (not-found symmetry): when `id` holds no path separator and the
directory has no entry named `id.json`, GET, PUT (with any body, whether or not a write
would be accepted) and DELETE on `id` each respond 404 with
`{record_id: id, message: "error - resource not found"}`, `record_id` being the path
string unchanged, and each leaves the store as it was. -/
theorem notFound_symmetry (s : Store) (id : String) (body : Json) (accepted : Bool)
    (hid : '/' ∉ id.data) (h : s.get? (id ++ ".json") = none) :
    getStudent id s = (.sent 404 (notFoundBody id), s) ∧
    putStudent id body accepted s = (.sent 404 (notFoundBody id), s) ∧
    deleteStudent id s = (.sent 404 (notFoundBody id), s) :=
  ⟨getStudent_absent s id hid h, putStudent_absent s id body accepted hid h,
    deleteStudent_absent s id hid h⟩

theorem notFound_symmetry_witness :
    '/' ∉ "1234567890".data ∧
    johnStore.get? ("1234567890" ++ ".json") = none ∧
    getStudent "1234567890" johnStore = (.sent 404 (notFoundBody "1234567890"), johnStore) ∧
    putStudent "1234567890" johnDoe true johnStore
      = (.sent 404 (notFoundBody "1234567890"), johnStore) ∧
    deleteStudent "1234567890" johnStore
      = (.sent 404 (notFoundBody "1234567890"), johnStore) :=
  ⟨by decide, rfl, notFound_symmetry johnStore "1234567890" johnDoe true (by decide) rfl⟩

/-- C4 as stated fails. The identifier `./1000` (sent as `.%2F1000`) is the key of no
stored document, yet its path `students/./1000.json` is John Doe's file: GET responds
200 with that document, PUT responds 201 and overwrites it, DELETE responds 200 and
removes it. And where the entry `7.json` is a directory, no document, PUT on `7` passes
the `stat` test, fails to write and responds 200 with the failure message, not 404. -/
theorem notFound_symmetry_counterexample :
    johnStore.get? ("./1000" ++ ".json") = none ∧
    getStudent "./1000" johnStore = (.sent 200 (.text (.json johnDocument)), johnStore) ∧
    putStudent "./1000" janeRoe true johnStore
      = (.sent 201 (updatedBody "./1000"),
         [("1000.json", .file (.json (.obj [("record_id", .str "./1000"),
            ("first_name", .str "Jane"), ("last_name", .str "Roe"), ("gpa", .num 4),
            ("enrolled", .bool true)])))]) ∧
    deleteStudent "./1000" johnStore = (.sent 200 (deletedBody "./1000"), []) ∧
    putStudent "7" janeRoe true directoryStore
      = (.sent 200 (.json (.obj [("record_id", .str "7"),
          ("message", .str "error - unable to update resource")])), directoryStore) :=
  ⟨rfl, rfl, rfl, rfl, rfl⟩

theorem deleteStudent_deleted (s : Store) (id : String) (hid : '/' ∉ id.data)
    (h : (deleteStudent id s).1 = .sent 200 (deletedBody id)) :
    (deleteStudent id s).2 = s.erase (id ++ ".json") := by
  simp only [deleteStudent, fs.unlink, resolve_record s id hid] at h ⊢
  rcases hg : s.get? (id ++ ".json") with _ | (t | _ | _ | _) <;> simp [hg] at h ⊢

/-- C5, amended (delete then fetch): when `id` holds no path separator and DELETE on
`id` responds 200 with `{record_id: id, message: "record deleted"}`, then on the store
it leaves a GET on `id` responds 404, a second DELETE on `id` responds 404 and changes
nothing, and every entry under another file name is as it was before the first
DELETE. -/
theorem delete_then_fetch (s : Store) (id : String) (hid : '/' ∉ id.data)
    (h : (deleteStudent id s).1 = .sent 200 (deletedBody id)) :
    getStudent id (deleteStudent id s).2
      = (.sent 404 (notFoundBody id), (deleteStudent id s).2) ∧
    deleteStudent id (deleteStudent id s).2
      = (.sent 404 (notFoundBody id), (deleteStudent id s).2) ∧
    ∀ name, name ≠ id ++ ".json" → (deleteStudent id s).2.get? name = s.get? name := by
  rw [deleteStudent_deleted s id hid h]
  have hnone := Store.get?_erase_same s (id ++ ".json")
  refine ⟨getStudent_absent _ id hid hnone, deleteStudent_absent _ id hid hnone, ?_⟩
  intro name hname
  exact Store.get?_erase_other s _ _ hname

theorem delete_then_fetch_witness :
    getStudent "1000" (deleteStudent "1000" twoStore).2
      = (.sent 404 (notFoundBody "1000"), (deleteStudent "1000" twoStore).2) ∧
    deleteStudent "1000" (deleteStudent "1000" twoStore).2
      = (.sent 404 (notFoundBody "1000"), (deleteStudent "1000" twoStore).2) ∧
    ∀ name, name ≠ "1000" ++ ".json" →
      (deleteStudent "1000" twoStore).2.get? name = twoStore.get? name :=
  delete_then_fetch twoStore "1000" (by decide) rfl

/-- C5 as stated fails. DELETE on the identifier `./1000` (sent as `.%2F1000`) responds
200 with `{record_id: "./1000", message: "record deleted"}` and removes the file
`1000.json`: the document stored under the key `1000`, a key other than the
identifier, is not left unchanged. -/
theorem delete_then_fetch_counterexample :
    deleteStudent "./1000" twoStore
      = (.sent 200 (deletedBody "./1000"),
         [("2000.json", .file (.json (.obj [("record_id", .num 2000),
            ("first_name", .str "Jane"), ("last_name", .str "Roe"), ("gpa", .num 4),
            ("enrolled", .bool true)])))]) ∧
    "1000" ≠ "./1000" ∧
    twoStore.get? "1000.json" = some (.file (.json johnDocument)) ∧
    (deleteStudent "./1000" twoStore).2.get? "1000.json" = none :=
  ⟨rfl, by decide, rfl, rfl⟩

theorem putStudent_updated (s : Store) (id : String) (body : Json) (t : FileText)
    (hid : '/' ∉ id.data) (hn : s.get? (id ++ ".json") = some (.file t)) :
    putStudent id body true s =
      (.sent 201 (updatedBody id),
       s.put (id ++ ".json") (.file (.json (storedDocument (.str id) body)))) := by
  simp [putStudent, fs.stat, fs.writeFile, resolve_record s id hid, hn, updatedBody,
    stringify_studentObject]

/-- C6, amended (replace is a full overwrite): when `id` holds no path separator, the
entry `id.json` is a readable file and the write is accepted, PUT on `id` with body `F`
responds 201 with `{record_id: id, message: "successfully updated"}`; afterwards the
entry under `id` is a readable document whose `record_id` is the path string `id`, whose
`first_name`, `last_name`, `gpa` and `enrolled` are those of `F` as `JSON.stringify`
writes them (`undefined` where `F` has none, `null` for a non-finite number, `0` for
`-0`, and `F`'s own value wherever it holds neither), and which has no other property,
so nothing of the earlier document is kept; every entry under another file name is
unchanged. -/
theorem put_full_overwrite (s : Store) (id : String) (body : Json) (t : FileText)
    (hid : '/' ∉ id.data) (hn : s.get? (id ++ ".json") = some (.file t)) :
    (putStudent id body true s).1 = .sent 201 (updatedBody id) ∧
    (∃ doc, (putStudent id body true s).2.get? (id ++ ".json") = some (.file (.json doc)) ∧
      getProp doc "record_id" = some (.str id) ∧
      (∀ k ∈ ["first_name", "last_name", "gpa", "enrolled"],
        getProp doc k = (getProp body k).map Json.written ∧
        ((∀ v, getProp body k = some v → v.exact = true) →
          getProp doc k = getProp body k)) ∧
      ∀ k, k ∉ ["record_id", "first_name", "last_name", "gpa", "enrolled"] →
        getProp doc k = none) ∧
    ∀ name, name ≠ id ++ ".json" → (putStudent id body true s).2.get? name = s.get? name := by
  rw [putStudent_updated s id body t hid hn]
  refine ⟨rfl, ?_, fun name hname => Store.get?_put_other s _ _ _ hname⟩
  have hp := getProp_storedDocument (.str id) body
  have hfield : ∀ k ∈ ["first_name", "last_name", "gpa", "enrolled"],
      getProp (storedDocument (.str id) body) k = (getProp body k).map Json.written := by
    intro k hk
    rw [hp]
    simp only [List.mem_cons, List.mem_singleton, List.not_mem_nil, or_false] at hk
    rcases hk with rfl | rfl | rfl | rfl <;> simp
  refine ⟨storedDocument (.str id) body, Store.get?_put_same _ _ _, ?_, ?_, ?_⟩
  · rw [hp]
    simp [Json.written]
  · intro k hk
    refine ⟨hfield k hk, fun hfin => ?_⟩
    rw [hfield k hk, map_written_of_exact _ hfin]
  · intro k hk
    rw [hp]
    simp only [List.mem_cons, List.mem_singleton, List.not_mem_nil, or_false, not_or] at hk
    simp [hk]

theorem put_full_overwrite_witness :
    (putStudent "1000" (.obj [("gpa", .num 4)]) true johnStore).1
      = .sent 201 (updatedBody "1000") ∧
    (∃ doc, (putStudent "1000" (.obj [("gpa", .num 4)]) true johnStore).2.get?
        ("1000" ++ ".json") = some (.file (.json doc)) ∧
      getProp doc "record_id" = some (.str "1000") ∧
      (∀ k ∈ ["first_name", "last_name", "gpa", "enrolled"],
        getProp doc k = (getProp (.obj [("gpa", .num 4)]) k).map Json.written ∧
        ((∀ v, getProp (.obj [("gpa", .num 4)]) k = some v → v.exact = true) →
          getProp doc k = getProp (.obj [("gpa", .num 4)]) k)) ∧
      ∀ k, k ∉ ["record_id", "first_name", "last_name", "gpa", "enrolled"] →
        getProp doc k = none) ∧
    ∀ name, name ≠ "1000" ++ ".json" →
      (putStudent "1000" (.obj [("gpa", .num 4)]) true johnStore).2.get? name
        = johnStore.get? name :=
  put_full_overwrite johnStore "1000" (.obj [("gpa", .num 4)]) _ (by decide) rfl

/-- C6 as stated fails. A body whose `gpa` was sent as `1e400` reaches the handler with
`gpa` equal to `Infinity`; PUT on the stored key `1000` responds 201, and the document
written has `gpa: null`, not the `gpa` of the body. -/
theorem put_full_overwrite_counterexample :
    johnStore.get? ("1000" ++ ".json") = some (.file (.json johnDocument)) ∧
    getProp overflowBody "gpa" = some (.nonFinite false) ∧
    putStudent "1000" overflowBody true johnStore
      = (.sent 201 (updatedBody "1000"),
         [("1000.json", .file (.json (.obj [("record_id", .str "1000"),
            ("first_name", .str "Jane"), ("last_name", .str "Roe"), ("gpa", .null),
            ("enrolled", .bool true)])))]) :=
  ⟨rfl, rfl, rfl⟩

/-! ## The duplicate check -/

theorem asciiLowerCase_eq_empty (s : String) : asciiLowerCase s = "" ↔ s = "" := by
  constructor
  · intro h
    have hd : (asciiLowerCase s).data = [] := by rw [h]
    simp only [asciiLowerCase, List.map_eq_nil_iff] at hd
    exact String.ext hd
  · rintro rfl
    rfl

theorem lower_ne_empty (toLowerCase : String → String)
    (hlow : ∀ s, toLowerCase s = "" ↔ s = "") {a b : String}
    (h : toLowerCase a = toLowerCase b) (hb : b ≠ "") : a ≠ "" := by
  intro ha
  apply hb
  rw [← hlow b, ← h, ha]
  exact (hlow "").2 rfl

theorem checkFile_eq (toLowerCase : String → String) (fn ln : JsVal) (s : Store)
    (file : String) (hfile : validName file = true) :
    checkFile toLowerCase fn ln "students" s file
      = checkNode toLowerCase fn ln (s.get? file) := by
  simp only [checkFile, fs.readFileSync, fs.readFile, resolve_dir_file s file hfile]
  rcases s.get? file with _ | (t | _ | _ | _)
  · rfl
  · cases t <;> rfl
  · rfl
  · rfl
  · rfl

theorem checkStudentExists_eq (toLowerCase : String → String) (fn ln : JsVal) (s : Store) :
    checkStudentExists toLowerCase fn ln "students" s
      = checkStudentFiles toLowerCase fn ln "students" s (s.map Prod.fst) := by
  simp [checkStudentExists, fs.readdirSync]

theorem checkStudentFiles_true (toLowerCase : String → String) (fn ln : JsVal) (s : Store)
    (pre : List String) (file : String) (rest : List String)
    (hpre : ∀ f ∈ pre, ∃ b, checkFile toLowerCase fn ln "students" s f = .ok b)
    (hfile : checkFile toLowerCase fn ln "students" s file = .ok true) :
    checkStudentFiles toLowerCase fn ln "students" s (pre ++ file :: rest) = .ok true := by
  induction pre with
  | nil => simp [checkStudentFiles, hfile]
  | cons f pre ih =>
    obtain ⟨b, hb⟩ := hpre f (List.mem_cons_self _ _)
    have ih' := ih (fun g hg => hpre g (List.mem_cons_of_mem _ hg))
    cases b with
    | true => simp [checkStudentFiles, hb]
    | false => simpa [checkStudentFiles, hb] using ih'

theorem checkStudentFiles_false_iff (toLowerCase : String → String) (fn ln : JsVal)
    (s : Store) (files : List String) :
    checkStudentFiles toLowerCase fn ln "students" s files = .ok false ↔
      ∀ f ∈ files, checkFile toLowerCase fn ln "students" s f = .ok false := by
  induction files with
  | nil => simp [checkStudentFiles]
  | cons f rest ih =>
    rcases hf : checkFile toLowerCase fn ln "students" s f with e | (_ | _)
    · simp [checkStudentFiles, hf]
    · simp [checkStudentFiles, hf, ih]
    · simp [checkStudentFiles, hf]

theorem checkStudentData_hasName (toLowerCase : String → String)
    (hlow : ∀ s, toLowerCase s = "" ↔ s = "") (fn ln : String) (v : Json)
    (hfn : fn ≠ "") (hln : ln ≠ "") (h : hasName toLowerCase fn ln (.file (.json v)) = true) :
    checkStudentData toLowerCase (some (.str fn)) (some (.str ln)) v = .ok true := by
  unfold hasName at h
  have hv : truthy (some v) = true := by
    cases v <;> simp_all [getProp, truthy]
  rcases h1 : getProp v "first_name" with _ | (_ | _ | _ | _ | _ | a | _ | _) <;>
    rcases h2 : getProp v "last_name" with _ | (_ | _ | _ | _ | _ | b | _ | _) <;>
    simp [h1, h2] at h
  obtain ⟨ha, hb⟩ := h
  have ha' := lower_ne_empty toLowerCase hlow ha hfn
  have hb' := lower_ne_empty toLowerCase hlow hb hln
  have ta : truthy (some (.str a)) = true := by simp [truthy, ha']
  have tb : truthy (some (.str b)) = true := by simp [truthy, hb']
  simp [checkStudentData, hv, h1, h2, ta, tb, callToLowerCase, ha, hb]

theorem checkStudentData_scanSafe (toLowerCase : String → String) (fn ln : String) (v : Json)
    (h : scanSafe (.file (.json v)) = true) :
    ∃ b, checkStudentData toLowerCase (some (.str fn)) (some (.str ln)) v = .ok b := by
  unfold scanSafe nameOk at h
  unfold checkStudentData
  split_ifs with hg
  · simp only [Bool.and_eq_true] at hg
    obtain ⟨⟨-, h1⟩, h2⟩ := hg
    simp only [h1, h2, Bool.not_true, Bool.false_or, Bool.and_eq_true] at h
    rcases hx : getProp v "first_name" with _ | (_ | _ | _ | _ | _ | a | _ | _) <;>
      simp [hx, isStr] at h
    rcases hy : getProp v "last_name" with _ | (_ | _ | _ | _ | _ | b | _ | _) <;>
      simp [hy, isStr] at h
    simp only [callToLowerCase]
    split_ifs
    · exact ⟨_, rfl⟩
    · exact ⟨_, rfl⟩
  · exact ⟨_, rfl⟩

theorem hasName_of_checkStudentData (toLowerCase : String → String) (fn ln : String)
    (v : Json)
    (h : checkStudentData toLowerCase (some (.str fn)) (some (.str ln)) v = .ok true) :
    hasName toLowerCase fn ln (.file (.json v)) = true := by
  unfold checkStudentData at h
  unfold hasName
  rcases hx : getProp v "first_name" with _ | (_ | _ | _ | _ | _ | a | _ | _) <;>
    rcases hy : getProp v "last_name" with _ | (_ | _ | _ | _ | _ | c | _ | _) <;>
    simp only [hx, hy, callToLowerCase] at h ⊢ <;>
    split_ifs at h <;> simp_all

theorem checkStudentData_no_match (toLowerCase : String → String) (fn ln : String) (v : Json)
    (hsafe : scanSafe (.file (.json v)) = true)
    (hno : hasName toLowerCase fn ln (.file (.json v)) = false) :
    checkStudentData toLowerCase (some (.str fn)) (some (.str ln)) v = .ok false := by
  obtain ⟨b, hb⟩ := checkStudentData_scanSafe toLowerCase fn ln v hsafe
  cases b with
  | false => exact hb
  | true =>
    rw [hasName_of_checkStudentData toLowerCase fn ln v hb] at hno
    cases hno

theorem checkStudentData_lower (toLowerCase : String → String) (fn ln fn' ln' : String)
    (v : Json) (h1 : toLowerCase fn = toLowerCase fn') (h2 : toLowerCase ln = toLowerCase ln') :
    checkStudentData toLowerCase (some (.str fn)) (some (.str ln)) v
      = checkStudentData toLowerCase (some (.str fn')) (some (.str ln')) v := by
  simp only [checkStudentData, callToLowerCase, h1, h2]

theorem checkNode_lower (toLowerCase : String → String) (fn ln fn' ln' : String)
    (n : Option Node)
    (h1 : toLowerCase fn = toLowerCase fn') (h2 : toLowerCase ln = toLowerCase ln') :
    checkNode toLowerCase (some (.str fn)) (some (.str ln)) n
      = checkNode toLowerCase (some (.str fn')) (some (.str ln')) n := by
  rcases n with _ | (t | _ | _ | _)
  · rfl
  · cases t with
    | json v =>
      simp only [checkNode, checkStudentData_lower toLowerCase fn ln fn' ln' v h1 h2]
    | garbage raw => rfl
  · rfl
  · rfl
  · rfl

theorem checkNode_scanSafe (toLowerCase : String → String) (fn ln : String) (n : Node)
    (h : scanSafe n = true) :
    ∃ b, checkNode toLowerCase (some (.str fn)) (some (.str ln)) (some n) = .ok b := by
  rcases n with (v | raw) | _ | _ | _
  · obtain ⟨b, hb⟩ := checkStudentData_scanSafe toLowerCase fn ln v h
    exact ⟨b, by simp [checkNode, hb]⟩
  all_goals simp [scanSafe] at h

theorem checkNode_hasName (toLowerCase : String → String)
    (hlow : ∀ s, toLowerCase s = "" ↔ s = "") (fn ln : String) (n : Node)
    (hfn : fn ≠ "") (hln : ln ≠ "") (h : hasName toLowerCase fn ln n = true) :
    checkNode toLowerCase (some (.str fn)) (some (.str ln)) (some n) = .ok true := by
  rcases n with (v | raw) | _ | _ | _
  · simp [checkNode, checkStudentData_hasName toLowerCase hlow fn ln v hfn hln h]
  all_goals simp [hasName] at h

theorem checkNode_no_match (toLowerCase : String → String) (fn ln : String) (n : Node)
    (hsafe : scanSafe n = true) (hno : hasName toLowerCase fn ln n = false) :
    checkNode toLowerCase (some (.str fn)) (some (.str ln)) (some n) = .ok false := by
  rcases n with (v | raw) | _ | _ | _
  · simp [checkNode, checkStudentData_no_match toLowerCase fn ln v hsafe hno]
  all_goals simp [scanSafe] at hsafe

theorem hasName_storedDocument (toLowerCase : String → String) (rid body : Json)
    (fn ln fn' ln' : String)
    (hfn : getProp body "first_name" = some (.str fn))
    (hln : getProp body "last_name" = some (.str ln))
    (h1 : toLowerCase fn = toLowerCase fn') (h2 : toLowerCase ln = toLowerCase ln') :
    hasName toLowerCase fn' ln' (.file (.json (storedDocument rid body))) = true := by
  simp [hasName, getProp_storedDocument, hfn, hln, h1, h2, Json.written]

/-- The duplicate check on a well-formed directory: when every entry is a readable,
parseable document whose names are each falsy or a string, and none carries the asked
name, the check completes and answers `false`. -/
theorem checkStudentExists_no_match (toLowerCase : String → String) (s : Store)
    (hwf : s.WF) (fn ln : String)
    (hsafe : ∀ e ∈ s, scanSafe e.2 = true)
    (hno : ∀ e ∈ s, hasName toLowerCase fn ln e.2 = false) :
    checkStudentExists toLowerCase (some (.str fn)) (some (.str ln)) "students" s
      = .ok false := by
  rw [checkStudentExists_eq, checkStudentFiles_false_iff]
  intro f hf
  obtain ⟨e, he, rfl⟩ := List.mem_map.1 hf
  rw [checkFile_eq _ _ _ _ _ (Store.validName_of_mem s hwf e he),
    Store.get?_of_mem s hwf e he]
  exact checkNode_no_match toLowerCase fn ln e.2 (hsafe e he) (hno e he)

/-! ## Create -/

theorem Store.mem_of_get? (s : Store) (k : String) (n : Node) (h : s.get? k = some n) :
    (k, n) ∈ s := by
  induction s with
  | nil => simp [Store.get?] at h
  | cons x rest ih =>
    obtain ⟨k', m⟩ := x
    by_cases hk : k' = k
    · simp only [Store.get?, if_pos hk, Option.some.injEq] at h
      simp [hk, h]
    · simp only [Store.get?, if_neg hk] at h
      exact List.mem_cons_of_mem _ (ih h)

theorem writeFile_created (s : Store) (now : Nat) (str : FileText)
    (h : s.get? (toString now ++ ".json") ≠ some .directory)
    (hu : s.get? (toString now ++ ".json") ≠ some .unreadable) :
    fs.writeFile s ("students/" ++ toString now ++ ".json") str true
      = .ok (s.put (toString now ++ ".json") (.file str)) := by
  simp only [fs.writeFile, resolve_created]
  rcases hg : s.get? (toString now ++ ".json") with _ | (t | _ | _ | _)
  · rfl
  · rfl
  · exact absurd hg hu
  · exact absurd hg h
  · rfl

theorem postStudents_created (toLowerCase : String → String) (now : Nat) (body : Json)
    (accepted : Bool) (s : Store)
    (h : (postStudents toLowerCase now body accepted s).1 = .sent 201 (createdBody now)) :
    checkStudentExists toLowerCase (getProp body "first_name") (getProp body "last_name")
      "students" s = .ok false ∧
    (s.get? (toString now ++ ".json") ≠ some .unreadable →
      (postStudents toLowerCase now body accepted s).2
        = s.put (toString now ++ ".json")
            (.file (.json (storedDocument (.num now) body)))) := by
  rcases hc : checkStudentExists toLowerCase (getProp body "first_name")
      (getProp body "last_name") "students" s with st | (_ | _)
  · cases st <;> simp [postStudents, hc, Stop.outcome] at h
  · refine ⟨rfl, ?_⟩
    simp only [postStudents, hc, fs.writeFile, resolve_created] at h ⊢
    rcases hg : s.get? (toString now ++ ".json") with _ | (t | _ | _ | _) <;>
      cases accepted <;> simp [hg, stringify_studentObject] at h ⊢
  · simp [postStudents, hc] at h

theorem postStudents_status_created (toLowerCase : String → String) (now : Nat) (body : Json)
    (accepted : Bool) (s : Store)
    (h : (postStudents toLowerCase now body accepted s).1.status = some 201) :
    (postStudents toLowerCase now body accepted s).1 = .sent 201 (createdBody now) := by
  rcases hc : checkStudentExists toLowerCase (getProp body "first_name")
      (getProp body "last_name") "students" s with st | (_ | _)
  · cases st <;> simp [postStudents, hc, Stop.outcome, Outcome.status] at h
  · simp only [postStudents, hc, fs.writeFile, resolve_created] at h ⊢
    rcases hg : s.get? (toString now ++ ".json") with _ | (t | _ | _ | _) <;>
      cases accepted <;> simp [hg, Outcome.status, createdBody] at h ⊢
  · simp [postStudents, hc, Outcome.status] at h

theorem postStudents_conflict_of_check (toLowerCase : String → String) (now : Nat)
    (body : Json) (accepted : Bool) (s : Store)
    (h : checkStudentExists toLowerCase (getProp body "first_name")
      (getProp body "last_name") "students" s = .ok true) :
    postStudents toLowerCase now body accepted s = (.sent 409 conflictBody, s) := by
  simp [postStudents, h, conflictBody]

theorem postStudents_of_no_match (toLowerCase : String → String) (now : Nat) (body : Json)
    (s : Store)
    (hc : checkStudentExists toLowerCase (getProp body "first_name")
      (getProp body "last_name") "students" s = .ok false)
    (hd : s.get? (toString now ++ ".json") ≠ some .directory)
    (hu : s.get? (toString now ++ ".json") ≠ some .unreadable) :
    postStudents toLowerCase now body true s
      = (.sent 201 (createdBody now),
         s.put (toString now ++ ".json")
          (.file (.json (storedDocument (.num now) body)))) := by
  simp [postStudents, hc, writeFile_created s now _ hd hu, createdBody,
    stringify_studentObject]

/-- The create on an empty directory: whatever the body, names missing or not strings
included, the duplicate check has nothing to compare, and an accepted write responds 201
and persists the body's fields as `JSON.stringify` writes them. -/
theorem postStudents_empty_store (toLowerCase : String → String) (now : Nat) (body : Json) :
    postStudents toLowerCase now body true []
      = (.sent 201 (createdBody now),
         [(toString now ++ ".json", .file (.json (storedDocument (.num now) body)))]) := by
  rw [postStudents_of_no_match toLowerCase now body [] rfl (by simp [Store.get?])
    (by simp [Store.get?])]
  rfl

/-- The create on a directory whose first entry is a document with non-empty string
names: when the request's `first_name` is not a string (missing, `null`, a number, ...),
`first_name.toLowerCase()` raises a `TypeError`, no response is sent and nothing is
persisted. -/
theorem postStudents_nonstring_name_throws (toLowerCase : String → String) (now : Nat)
    (body : Json) (accepted : Bool)
    (file : String) (v : Json) (rest : Store) (a b : String)
    (hfile : validName file = true)
    (ha : getProp v "first_name" = some (.str a)) (hb : getProp v "last_name" = some (.str b))
    (hane : a ≠ "") (hbne : b ≠ "")
    (hbody : isStr (getProp body "first_name") = false) :
    postStudents toLowerCase now body accepted ((file, .file (.json v)) :: rest)
      = (.threw .typeError, (file, .file (.json v)) :: rest) := by
  have hv : truthy (some v) = true := by
    cases v <;> simp_all [getProp, truthy]
  have ta : truthy (some (.str a)) = true := by simp [truthy, hane]
  have tb : truthy (some (.str b)) = true := by simp [truthy, hbne]
  have hcall : callToLowerCase toLowerCase (getProp body "first_name")
      = .error .typeError := by
    rcases hx : getProp body "first_name" with _ | (_ | _ | _ | _ | _ | c | _ | _) <;>
      simp [hx, isStr, callToLowerCase] at hbody ⊢
  have hdata : checkStudentData toLowerCase (getProp body "first_name")
      (getProp body "last_name") v = .error .typeError := by
    have hca : callToLowerCase toLowerCase (some (.str a)) = .ok (toLowerCase a) := rfl
    simp [checkStudentData, hv, ha, hb, ta, tb, hca, hcall]
  have hchk : checkStudentExists toLowerCase (getProp body "first_name")
      (getProp body "last_name") "students" ((file, .file (.json v)) :: rest)
      = .error (.threw .typeError) := by
    rw [checkStudentExists_eq]
    simp [checkStudentFiles, checkFile_eq _ _ _ _ _ hfile, Store.get?, checkNode, hdata]
  simp [postStudents, hchk, Stop.outcome]

/-- The create on an absent directory: `fs.access` errs, `fs.mkdir` is started, and
`fs.readdirSync`, called before the directory is made, throws out of the callback; no
response is sent and no document is written. -/
theorem postStudentsAccess_absent (toLowerCase : String → String) (now : Nat) (body : Json)
    (accepted : Bool) :
    postStudentsAccess toLowerCase now body accepted .absent
      = (.threw .ioError, .present []) := rfl

/-! ## The order of the listing -/

theorem Store.get?_perm (s s' : Store) (hwf : s.WF) (hp : s'.Perm s) (k : String) :
    s'.get? k = s.get? k := by
  rcases hg : s'.get? k with _ | n
  · have hk : k ∉ s'.map Prod.fst := (Store.get?_eq_none_iff s' k).1 hg
    have hk' : k ∉ s.map Prod.fst := fun hmem => hk ((hp.map Prod.fst).mem_iff.2 hmem)
    exact ((Store.get?_eq_none_iff s k).2 hk').symm
  · have hmem : (k, n) ∈ s := hp.mem_iff.1 (Store.mem_of_get? s' k n hg)
    exact (Store.get?_of_mem s hwf (k, n) hmem).symm

theorem Store.mem_keys_put (s : Store) (k : String) (n : Node) (f : String)
    (h : f ∈ (s.put k n).map Prod.fst) : f = k ∨ f ∈ s.map Prod.fst := by
  induction s with
  | nil => simpa [Store.put] using h
  | cons x rest ih =>
    obtain ⟨k', m⟩ := x
    by_cases hk : k' = k
    · simp only [Store.put, if_pos hk, List.map_cons, List.mem_cons] at h
      rcases h with h | h
      · exact Or.inl h
      · exact Or.inr (List.mem_cons_of_mem _ h)
    · simp only [Store.put, if_neg hk, List.map_cons, List.mem_cons] at h
      rcases h with h | h
      · exact Or.inr (by simp [h])
      · rcases ih h with h' | h'
        · exact Or.inl h'
        · exact Or.inr (List.mem_cons_of_mem _ h')

theorem Store.key_mem_put (s : Store) (k : String) (n : Node) :
    k ∈ (s.put k n).map Prod.fst := by
  have h := Store.get?_put_same s k n
  by_contra hk
  rw [(Store.get?_eq_none_iff _ k).2 hk] at h
  cases h

theorem checkStudentFiles_some_true (toLowerCase : String → String) (fn ln : JsVal)
    (s : Store) (files : List String)
    (hall : ∀ f ∈ files, ∃ b, checkFile toLowerCase fn ln "students" s f = .ok b)
    (hsome : ∃ f ∈ files, checkFile toLowerCase fn ln "students" s f = .ok true) :
    checkStudentFiles toLowerCase fn ln "students" s files = .ok true := by
  induction files with
  | nil =>
    obtain ⟨f, hf, -⟩ := hsome
    cases hf
  | cons f rest ih =>
    obtain ⟨b, hb⟩ := hall f (List.mem_cons_self _ _)
    cases b with
    | true => simp [checkStudentFiles, hb]
    | false =>
      simp only [checkStudentFiles, hb]
      apply ih (fun g hg => hall g (List.mem_cons_of_mem _ hg))
      obtain ⟨g, hg, hgt⟩ := hsome
      rcases List.mem_cons.1 hg with rfl | hg'
      · rw [hb] at hgt
        cases hgt
      · exact ⟨g, hg', hgt⟩

/-- C2, amended (round trip of create then get): in a directory with one entry per valid
file name, where every entry is a readable, parseable document whose `first_name` and
`last_name` are each falsy or a string and none has the request's names
case-insensitively, a POST whose `first_name` and `last_name` are strings and whose
write is accepted responds 201 with the numeric `record_id` `now`; a GET on the decimal
rendering of that identifier then responds 200 with the stored document, whose
`record_id` is that number, whose `first_name` and `last_name` equal those of `F`, and
whose `gpa` and `enrolled` are those of `F` as `JSON.stringify` writes them: `F`'s own
value wherever it holds no non-finite number and no `-0`, `null` in place of a
non-finite number, `0` in place of `-0`. -/
theorem create_get_roundtrip (toLowerCase : String → String) (s : Store) (hwf : s.WF)
    (now : Nat) (body : Json) (fn ln : String)
    (hfn : getProp body "first_name" = some (.str fn))
    (hln : getProp body "last_name" = some (.str ln))
    (hsafe : ∀ e ∈ s, scanSafe e.2 = true)
    (hno : ∀ e ∈ s, hasName toLowerCase fn ln e.2 = false) :
    (postStudents toLowerCase now body true s).1 = .sent 201 (createdBody now) ∧
    ∃ doc, getStudent (toString now) (postStudents toLowerCase now body true s).2
        = (.sent 200 (.text (.json doc)), (postStudents toLowerCase now body true s).2) ∧
      getProp doc "record_id" = some (.num now) ∧
      getProp doc "first_name" = getProp body "first_name" ∧
      getProp doc "last_name" = getProp body "last_name" ∧
      ∀ k ∈ ["gpa", "enrolled"],
        getProp doc k = (getProp body k).map Json.written ∧
        ((∀ v, getProp body k = some v → v.exact = true) →
          getProp doc k = getProp body k) := by
  have hc := checkStudentExists_no_match toLowerCase s hwf fn ln hsafe hno
  rw [← hfn, ← hln] at hc
  have hd : s.get? (toString now ++ ".json") ≠ some .directory := by
    intro hg
    have := hsafe _ (Store.mem_of_get? s _ _ hg)
    simp [scanSafe] at this
  have hu : s.get? (toString now ++ ".json") ≠ some .unreadable := by
    intro hg
    have := hsafe _ (Store.mem_of_get? s _ _ hg)
    simp [scanSafe] at this
  rw [postStudents_of_no_match toLowerCase now body s hc hd hu]
  refine ⟨rfl, storedDocument (.num now) body, ?_, ?_, ?_, ?_, ?_⟩
  · simp [getStudent, readFile_record _ _ (toString_no_separator now), Store.get?_put_same]
  · rw [getProp_storedDocument]
    simp [Json.written]
  · rw [getProp_storedDocument, hfn]
    simp [Json.written]
  · rw [getProp_storedDocument, hln]
    simp [Json.written]
  · intro k hk
    have hfield : getProp (storedDocument (.num now) body) k
        = (getProp body k).map Json.written := by
      rw [getProp_storedDocument]
      simp only [List.mem_cons, List.mem_singleton, List.not_mem_nil, or_false] at hk
      rcases hk with rfl | rfl <;> simp
    exact ⟨hfield, fun hfin => by rw [hfield, map_written_of_exact _ hfin]⟩

theorem create_get_roundtrip_witness :
    (postStudents asciiLowerCase 2000 janeRoe true johnStore).1
      = .sent 201 (createdBody 2000) ∧
    ∃ doc, getStudent (toString 2000) (postStudents asciiLowerCase 2000 janeRoe true johnStore).2
        = (.sent 200 (.text (.json doc)),
            (postStudents asciiLowerCase 2000 janeRoe true johnStore).2) ∧
      getProp doc "record_id" = some (.num (2000 : Nat)) ∧
      getProp doc "first_name" = getProp janeRoe "first_name" ∧
      getProp doc "last_name" = getProp janeRoe "last_name" ∧
      ∀ k ∈ ["gpa", "enrolled"],
        getProp doc k = (getProp janeRoe k).map Json.written ∧
        ((∀ v, getProp janeRoe k = some v → v.exact = true) →
          getProp doc k = getProp janeRoe k) :=
  create_get_roundtrip asciiLowerCase johnStore johnStore_wf 2000 janeRoe "Jane" "Roe" rfl rfl
    (fun e he => by
      simp only [johnStore, List.mem_singleton] at he
      subst he
      rfl)
    (fun e he => by
      simp only [johnStore, List.mem_singleton] at he
      subst he
      rfl)

/-- C2 as stated fails. (1) On the empty directory, a POST whose `gpa` was sent as
`1e400`, read as `Infinity`, responds 201, and the following GET returns a document
whose `gpa` is `null`, not the `gpa` of `F`. (2) The directory left by
`PUT /students/1000` with `{first_name: 5, last_name: "Doe"}` holds no record named Jane
Roe, yet a POST of Jane Roe raises a `TypeError` out of the duplicate check: no 201 and
no document. (3) Where the `students` directory is absent, no record is stored, and the
POST raises out of `readdirSync`. -/
theorem create_get_roundtrip_counterexample :
    (postStudents asciiLowerCase 2000 overflowBody true []).1
      = .sent 201 (createdBody 2000) ∧
    getStudent (toString 2000) (postStudents asciiLowerCase 2000 overflowBody true []).2
      = (.sent 200 (.text (.json (.obj [("record_id", .num 2000),
          ("first_name", .str "Jane"), ("last_name", .str "Roe"), ("gpa", .null),
          ("enrolled", .bool true)]))),
         (postStudents asciiLowerCase 2000 overflowBody true []).2) ∧
    getProp overflowBody "gpa" = some (.nonFinite false) ∧
    (putStudent "1000" (.obj [("first_name", .num 5), ("last_name", .str "Doe")]) true
      johnStore).2 = numberNameStore ∧
    (∀ e ∈ numberNameStore, hasName asciiLowerCase "Jane" "Roe" e.2 = false) ∧
    postStudents asciiLowerCase 2000 janeRoe true numberNameStore
      = (.threw .typeError, numberNameStore) ∧
    postStudentsAccess asciiLowerCase 2000 janeRoe true .absent
      = (.threw .ioError, .present []) := by
  refine ⟨rfl, rfl, rfl, rfl, ?_, rfl, rfl⟩
  intro e he
  simp only [numberNameStore, List.mem_singleton] at he
  subst he
  rfl

/-- C1, amended (duplicate names give 409): let the directory hold one entry per valid
file name and the request's `first_name` and `last_name` be non-empty strings; "equal
case-insensitively" is equality after `toLowerCase`, of which only this is used: it
sends the empty string, and no other, to the empty string. (1) If some stored document
has string names equal to the request's case-insensitively, and every entry listed
before it in the directory is a readable, parseable document whose two names are each
falsy or a string, POST responds 409 with
`{message: "Student with the same name already exists"}` and the store is unchanged.
(2) If a POST with these names responds 201, then, in whatever order the directory
lists its entries afterwards, a following POST with any case variation of the names, at
any time, responds 409 and changes nothing, and exactly one stored document carries
that name. -/
theorem duplicate_name_conflict (toLowerCase : String → String)
    (hlow : ∀ x, toLowerCase x = "" ↔ x = "")
    (s : Store) (hwf : s.WF) (body body' : Json)
    (fn ln fn' ln' : String)
    (hfn : getProp body "first_name" = some (.str fn))
    (hln : getProp body "last_name" = some (.str ln))
    (hfn' : getProp body' "first_name" = some (.str fn'))
    (hln' : getProp body' "last_name" = some (.str ln'))
    (hne1 : fn ≠ "") (hne2 : ln ≠ "")
    (hl1 : toLowerCase fn = toLowerCase fn') (hl2 : toLowerCase ln = toLowerCase ln') :
    (∀ (pre post : Store) (file : String) (n : Node), s = pre ++ (file, n) :: post →
      (∀ e ∈ pre, scanSafe e.2 = true) → hasName toLowerCase fn ln n = true →
      ∀ (now : Nat) (accepted : Bool),
        postStudents toLowerCase now body accepted s = (.sent 409 conflictBody, s)) ∧
    (∀ (t1 t2 : Nat) (accepted1 accepted2 : Bool) (s1 : Store),
      (postStudents toLowerCase t1 body accepted1 s).1 = .sent 201 (createdBody t1) →
      s1.Perm (postStudents toLowerCase t1 body accepted1 s).2 →
      postStudents toLowerCase t2 body' accepted2 s1 = (.sent 409 conflictBody, s1) ∧
      s1.countP (fun e => hasName toLowerCase fn ln e.2) = 1) := by
  have hne1' : fn' ≠ "" := lower_ne_empty toLowerCase hlow hl1.symm hne1
  have hne2' : ln' ≠ "" := lower_ne_empty toLowerCase hlow hl2.symm hne2
  constructor
  · intro pre post file n hs hpre hn now accepted
    apply postStudents_conflict_of_check
    rw [hfn, hln, checkStudentExists_eq]
    have hkeys : s.map Prod.fst = pre.map Prod.fst ++ file :: post.map Prod.fst := by
      rw [hs]; simp
    rw [hkeys]
    apply checkStudentFiles_true
    · intro f hf
      obtain ⟨e, he, rfl⟩ := List.mem_map.1 hf
      have hes : e ∈ s := by rw [hs]; exact List.mem_append_left _ he
      rw [checkFile_eq _ _ _ _ _ (Store.validName_of_mem s hwf e hes),
        Store.get?_of_mem s hwf e hes]
      exact checkNode_scanSafe toLowerCase fn ln e.2 (hpre e he)
    · have hes : (file, n) ∈ s := by rw [hs]; simp
      rw [checkFile_eq _ _ _ _ _ (Store.validName_of_mem s hwf _ hes),
        Store.get?_of_mem s hwf (file, n) hes]
      exact checkNode_hasName toLowerCase hlow fn ln n hne1 hne2 hn
  · intro t1 t2 accepted1 accepted2 s1 h201 hperm
    obtain ⟨hchk, hs1⟩ := postStudents_created toLowerCase t1 body accepted1 s h201
    rw [hfn, hln, checkStudentExists_eq, checkStudentFiles_false_iff] at hchk
    have hkey : validName (toString t1 ++ ".json") = true :=
      validName_record _ (toString_no_separator t1)
    have hu : s.get? (toString t1 ++ ".json") ≠ some .unreadable := by
      intro hg
      have hc := hchk _ (List.mem_map_of_mem Prod.fst (Store.mem_of_get? s _ _ hg))
      rw [checkFile_eq _ _ _ _ _ hkey, hg] at hc
      simp [checkNode] at hc
    rw [hs1 hu] at hperm
    have hwf1 := Store.put_wf s (toString t1 ++ ".json")
      (.file (.json (storedDocument (.num t1) body))) hwf hkey
    have hget := Store.get?_perm _ s1 hwf1 hperm
    have hnew : hasName toLowerCase fn' ln'
        (.file (.json (storedDocument (.num t1) body))) = true :=
      hasName_storedDocument toLowerCase _ body fn ln fn' ln' hfn hln hl1 hl2
    have hnew0 : hasName toLowerCase fn ln
        (.file (.json (storedDocument (.num t1) body))) = true :=
      hasName_storedDocument toLowerCase _ body fn ln fn ln hfn hln rfl rfl
    have hkeytrue : checkFile toLowerCase (some (.str fn')) (some (.str ln')) "students" s1
        (toString t1 ++ ".json") = .ok true := by
      rw [checkFile_eq _ _ _ _ _ hkey, hget, Store.get?_put_same]
      exact checkNode_hasName toLowerCase hlow fn' ln' _ hne1' hne2' hnew
    constructor
    · apply postStudents_conflict_of_check
      rw [hfn', hln', checkStudentExists_eq]
      apply checkStudentFiles_some_true
      · intro f hf
        have hf1 := (hperm.map Prod.fst).mem_iff.1 hf
        by_cases hfk : f = toString t1 ++ ".json"
        · exact ⟨true, hfk ▸ hkeytrue⟩
        · have hfs : f ∈ s.map Prod.fst :=
            (Store.mem_keys_put s _ _ f hf1).resolve_left hfk
          have hv : validName f = true := hwf.2 f hfs
          refine ⟨false, ?_⟩
          rw [checkFile_eq _ _ _ _ _ hv, hget, Store.get?_put_other s _ _ _ hfk,
            ← checkNode_lower toLowerCase fn ln fn' ln' _ hl1 hl2, ← checkFile_eq _ _ _ _ _ hv]
          exact hchk f hfs
      · exact ⟨_, (hperm.map Prod.fst).mem_iff.2 (Store.key_mem_put s _ _), hkeytrue⟩
    · rw [hperm.countP_eq]
      apply Store.countP_put
      · intro e he
        have hc := hchk e.1 (List.mem_map_of_mem Prod.fst he)
        rw [checkFile_eq _ _ _ _ _ (Store.validName_of_mem s hwf e he),
          Store.get?_of_mem s hwf e he] at hc
        cases hh : hasName toLowerCase fn ln e.2 with
        | false => rfl
        | true =>
          rw [checkNode_hasName toLowerCase hlow fn ln e.2 hne1 hne2 hh] at hc
          cases hc
      · exact hnew0

theorem duplicate_name_conflict_witness :
    postStudents asciiLowerCase 2000 johnDoe false johnStore
      = (.sent 409 conflictBody, johnStore) ∧
    (postStudents asciiLowerCase 1001 johnUpper true
        (postStudents asciiLowerCase 1000 johnDoe true []).2
        = (.sent 409 conflictBody, (postStudents asciiLowerCase 1000 johnDoe true []).2) ∧
      (postStudents asciiLowerCase 1000 johnDoe true []).2.countP
        (fun e => hasName asciiLowerCase "John" "Doe" e.2) = 1) :=
  ⟨(duplicate_name_conflict asciiLowerCase asciiLowerCase_eq_empty johnStore johnStore_wf
      johnDoe johnUpper "John" "Doe" "JOHN" "doe"
      rfl rfl rfl rfl (by decide) (by decide) rfl rfl).1 [] [] "1000.json" _ rfl
      (fun e he => by cases he) rfl 2000 false,
   (duplicate_name_conflict asciiLowerCase asciiLowerCase_eq_empty []
      ⟨List.nodup_nil, fun name hname => by cases hname⟩
      johnDoe johnUpper "John" "Doe" "JOHN" "doe"
      rfl rfl rfl rfl (by decide) (by decide) rfl rfl).2 1000 1001 true true _ rfl
      (List.Perm.refl _)⟩

/-- C1 as stated fails: the store holds a document whose names (`""`, `"Doe"`) equal the
request's, yet the POST responds 201, not 409, and a second document is persisted. -/
theorem duplicate_name_conflict_counterexample :
    (∃ e ∈ emptyNameStore, hasName asciiLowerCase "" "Doe" e.2 = true) ∧
    getProp emptyNameBody "first_name" = some (.str "") ∧
    getProp emptyNameBody "last_name" = some (.str "Doe") ∧
    (postStudents asciiLowerCase 2 emptyNameBody true emptyNameStore).1
      = .sent 201 (createdBody 2) ∧
    (postStudents asciiLowerCase 2 emptyNameBody true emptyNameStore).2.length = 2 ∧
    postStudents asciiLowerCase 2 emptyNameBody true emptyNameStore
      ≠ (.sent 409 conflictBody, emptyNameStore) := by
  refine ⟨⟨_, List.mem_cons_self _ _, rfl⟩, rfl, rfl, rfl, rfl, ?_⟩
  intro h
  have hl := congrArg (fun r => r.2.length) h
  have hl2 : (postStudents asciiLowerCase 2 emptyNameBody true emptyNameStore).2.length = 2 :=
    rfl
  simp only [hl2] at hl
  exact absurd hl (by decide)

/-- C7, amended (the identifier of a create): a POST that responds 201 returns as
`record_id` the time of the request in milliseconds, so creates made at different times
return different identifiers; and when no stored entry is keyed by that time, the create
adds one entry at the end of the directory, leaves every earlier entry as it was and
makes the number of entries grow by exactly one. -/
theorem create_fresh_identifier (toLowerCase : String → String) (s : Store) (now : Nat)
    (body : Json) (accepted : Bool)
    (hfresh : s.get? (toString now ++ ".json") = none)
    (h201 : (postStudents toLowerCase now body accepted s).1.status = some 201) :
    (postStudents toLowerCase now body accepted s).1 = .sent 201 (createdBody now) ∧
    (∀ t2 : Nat, t2 ≠ now → createdBody t2 ≠ createdBody now) ∧
    (postStudents toLowerCase now body accepted s).2
      = s ++ [(toString now ++ ".json", .file (.json (storedDocument (.num now) body)))] ∧
    (postStudents toLowerCase now body accepted s).2.length = s.length + 1 ∧
    ∀ name n, s.get? name = some n →
      (postStudents toLowerCase now body accepted s).2.get? name = some n := by
  have hcreated := postStudents_status_created toLowerCase now body accepted s h201
  obtain ⟨-, hs1'⟩ := postStudents_created toLowerCase now body accepted s hcreated
  have hs1 := hs1' (by rw [hfresh]; simp)
  refine ⟨hcreated, ?_, ?_, ?_, ?_⟩
  · intro t2 ht h
    apply ht
    simpa [createdBody] using h
  · rw [hs1, Store.put_fresh s _ _ hfresh]
  · rw [hs1, Store.put_fresh s _ _ hfresh]
    simp
  · intro name n hn
    have hne : name ≠ toString now ++ ".json" := by
      intro heq
      rw [heq, hfresh] at hn
      cases hn
    rw [hs1, Store.get?_put_other s _ _ _ hne, hn]

theorem create_fresh_identifier_witness :
    (postStudents asciiLowerCase 2000 janeRoe true johnStore).1
      = .sent 201 (createdBody 2000) ∧
    (∀ t2 : Nat, t2 ≠ 2000 → createdBody t2 ≠ createdBody 2000) ∧
    (postStudents asciiLowerCase 2000 janeRoe true johnStore).2
      = johnStore ++ [(toString 2000 ++ ".json",
          .file (.json (storedDocument (.num (2000 : Nat)) janeRoe)))] ∧
    (postStudents asciiLowerCase 2000 janeRoe true johnStore).2.length
      = johnStore.length + 1 ∧
    ∀ name n, johnStore.get? name = some n →
      (postStudents asciiLowerCase 2000 janeRoe true johnStore).2.get? name = some n :=
  create_fresh_identifier asciiLowerCase johnStore 2000 janeRoe true rfl rfl

/-- C7 as stated fails: two POSTs with different names made in the same millisecond both
respond 201 with the same `record_id`, and the second overwrites the document of the
first: the store holds one document, Jane Roe's, where two were created. -/
theorem create_fresh_identifier_counterexample :
    (postStudents asciiLowerCase 1000 johnDoe true []).1 = .sent 201 (createdBody 1000) ∧
    (postStudents asciiLowerCase 1000 janeRoe true
      (postStudents asciiLowerCase 1000 johnDoe true []).2).1
      = .sent 201 (createdBody 1000) ∧
    (postStudents asciiLowerCase 1000 johnDoe true []).2.length = 1 ∧
    (postStudents asciiLowerCase 1000 janeRoe true
      (postStudents asciiLowerCase 1000 johnDoe true []).2).2
      = [("1000.json", .file (.json (.obj [("record_id", .num 1000),
          ("first_name", .str "Jane"), ("last_name", .str "Roe"), ("gpa", .num 4),
          ("enrolled", .bool true)])))] :=
  ⟨rfl, rfl, rfl, rfl⟩

/-- C9 at a store holding John Doe and a body without names: the duplicate check calls
`toLowerCase` on `undefined`, the `TypeError` leaves the handler, no response is sent
and nothing is persisted, where the claim has 201 and a stored document. This holds
whatever `toLowerCase` does on strings. -/
theorem postStudents_missing_name_throws (toLowerCase : String → String) :
    postStudents toLowerCase 2000 (.obj [("gpa", .num 3), ("enrolled", .bool true)]) true
      johnStore = (.threw .typeError, johnStore) := rfl

/-! ## Listing -/

theorem readFilesFrom_all_parse (s : Store) (stack : List String) (docs arr : List Json)
    (hne : stack ≠ []) (h : List.Forall₂ (readsAs s) stack docs) :
    readFilesFrom s stack arr = .sent 200 (studentsBody (arr ++ docs)) := by
  induction h generalizing arr with
  | nil => exact absurd rfl hne
  | @cons p v ps vs hpv hrest ih =>
    obtain ⟨hp, hread⟩ := hpv
    cases ps with
    | nil =>
      cases hrest
      simp [readFilesFrom, hp, hread, JSON.parse, studentsBody]
    | cons q qs =>
      have := ih (arr ++ [v]) (by simp)
      simpa [readFilesFrom, hp, hread, JSON.parse] using this

theorem readFilesFrom_stops (s : Store) (stack : List String) (docs arr : List Json)
    (f : String) (rest : List String) (h : List.Forall₂ (readsAs s) stack docs) :
    readFilesFrom s (stack ++ f :: rest) arr = readFilesFrom s (f :: rest) (arr ++ docs) := by
  induction h generalizing arr with
  | nil => simp
  | @cons p v ps vs hpv hrest ih =>
    obtain ⟨hp, hread⟩ := hpv
    have := ih (arr ++ [v])
    simpa [readFilesFrom, hp, hread, JSON.parse] using this

/-- The success case of `readFiles`: when the list is not empty and every file reads and
parses, one response is sent, 200 with `{students: arr}`, `arr` being the initial array
followed by the parsed documents in the reverse of the list's order. -/
theorem readFiles_all_parse (s : Store) (files : List String) (docs arr : List Json)
    (hne : files ≠ []) (h : List.Forall₂ (readsAs s) files docs) :
    readFiles s files arr = .sent 200 (studentsBody (arr ++ docs.reverse)) := by
  unfold readFiles
  apply readFilesFrom_all_parse
  · simpa using hne
  · exact List.rel_reverse h

/-- The read-failure case of `readFiles`: when a file fails to read and every file after
it in the list reads and parses, the response is 500, whatever stands before it. -/
theorem readFiles_unreadable (s : Store) (pre post : List String) (f : String)
    (docs arr : List Json) (hf : f ≠ "") (hread : fs.readFile s f = .err)
    (h : List.Forall₂ (readsAs s) post docs) :
    readFiles s (pre ++ f :: post) arr = .sent 500 internalErrorBody := by
  unfold readFiles
  have hrev : List.Forall₂ (readsAs s) post.reverse docs.reverse := List.rel_reverse h
  rw [List.reverse_append, List.reverse_cons, List.append_assoc, List.singleton_append,
    readFilesFrom_stops s _ _ arr f pre.reverse hrev]
  simp [readFilesFrom, hf, hread, internalErrorBody]

/-- The parse-failure case of `readFiles`: when a file reads but does not parse and every
file after it in the list reads and parses, `JSON.parse` raises and no response is
sent. -/
theorem readFiles_parse_failure (s : Store) (pre post : List String) (f raw : String)
    (docs arr : List Json) (hf : f ≠ "") (hread : fs.readFile s f = .ok (.garbage raw))
    (h : List.Forall₂ (readsAs s) post docs) :
    readFiles s (pre ++ f :: post) arr = .threw .syntaxError := by
  unfold readFiles
  have hrev : List.Forall₂ (readsAs s) post.reverse docs.reverse := List.rel_reverse h
  rw [List.reverse_append, List.reverse_cons, List.append_assoc, List.singleton_append,
    readFilesFrom_stops s _ _ arr f pre.reverse hrev]
  simp [readFilesFrom, hf, hread, JSON.parse]

/-- C10 at a list whose first file is unreadable and whose last is corrupt: `readFiles`
pops the corrupt file first, `JSON.parse` raises, and no response is sent, where the
claim has exactly one response, the 500 of the unreadable file. -/
theorem readFiles_corrupt_throws :
    glob mixedStore = ["students/a.json", "students/b.json"] ∧
    fs.readFile mixedStore "students/a.json" = .err ∧
    readFiles mixedStore ["students/a.json", "students/b.json"] [] = .threw .syntaxError :=
  ⟨rfl, rfl, rfl⟩

theorem students_path_ne_empty (name : String) : "students/" ++ name ≠ "" := by
  intro h
  have hl := congrArg String.length h
  rw [String.length_append] at hl
  have h9 : "students/".length = 9 := by decide
  have h0 : "".length = 0 := by decide
  omega

theorem glob_eq (s : Store) :
    glob s = (s.filter (fun e => globMatch e.1)).map (fun e => "students/" ++ e.1) := by
  unfold glob
  induction s with
  | nil => rfl
  | cons x rest ih =>
    by_cases hx : globMatch x.1 = true
    · simp only [List.map_cons, List.filter_cons, hx, if_true, List.cons.injEq, true_and]
      exact ih
    · simp only [List.map_cons, List.filter_cons, hx, if_false, Bool.false_eq_true]
      exact ih

theorem readsAs_entries (s : Store) (hwf : s.WF) (l : Store) (docs : List Json)
    (hsub : ∀ e ∈ l, e ∈ s)
    (hdocs : l.map Prod.snd = docs.map (fun v => Node.file (.json v))) :
    List.Forall₂ (readsAs s) (l.map (fun e => "students/" ++ e.1)) docs := by
  induction l generalizing docs with
  | nil =>
    cases docs with
    | nil => exact List.Forall₂.nil
    | cons v vs => simp at hdocs
  | cons x rest ih =>
    cases docs with
    | nil => simp at hdocs
    | cons v vs =>
      simp only [List.map_cons, List.cons.injEq] at hdocs
      have hx := hsub x (List.mem_cons_self _ _)
      refine List.Forall₂.cons ⟨students_path_ne_empty _, ?_⟩
        (ih vs (fun e he => hsub e (List.mem_cons_of_mem _ he)) hdocs.2)
      have hget := Store.get?_of_mem s hwf x hx
      simp [fs.readFile, resolve_entry s _ (Store.validName_of_mem s hwf x hx), hget, hdocs.1]

/-- The success case of `GET /students`: in a directory with one entry per valid file
name, when the entries matching `*.json` are `N >= 1` readable files that parse to
`docs`, the response is 200 with `{students: [...]}`, the array holding those `N`
documents, in the reverse of the directory's order, and the store is unchanged. -/
theorem getStudents_complete (s : Store) (hwf : s.WF) (docs : List Json) (hne : docs ≠ [])
    (hdocs : (s.filter (fun e => globMatch e.1)).map Prod.snd
      = docs.map (fun v => Node.file (.json v))) :
    getStudents s = (.sent 200 (studentsBody docs.reverse), s) ∧
    docs.reverse.length = (s.filter (fun e => globMatch e.1)).length := by
  have hrel := readsAs_entries s hwf _ docs (fun e he => (List.mem_filter.1 he).1) hdocs
  rw [← glob_eq] at hrel
  have hfiles : glob s ≠ [] := by
    intro h0
    rw [h0] at hrel
    cases hrel
    exact hne rfl
  constructor
  · simp only [getStudents]
    rw [readFiles_all_parse s (glob s) docs [] hfiles hrel]
    simp
  · have := congrArg List.length hdocs
    simpa using this.symm

theorem getStudents_johnStore :
    getStudents johnStore
      = (.sent 200 (studentsBody [.obj [("record_id", .num 1000), ("first_name", .str "John"),
          ("last_name", .str "Doe"), ("gpa", .num 3), ("enrolled", .bool true)]]), johnStore) :=
  rfl

/-- C3 at the empty store: `GET /students` on a directory with no document returns from
`readFiles` at `if (!fname) return;` with no response sent and nothing raised, where the
claim has 200 with `{students: []}`. -/
theorem getStudents_empty_pending : getStudents [] = (.pending, []) := rfl

/-- C8 at a store with one corrupt document: `GET /students` raises the `SyntaxError` of
`JSON.parse` out of the `readFile` callback and sends no response, where the claim has
500 with `{message: "error - internal server error"}`. -/
theorem getStudents_corrupt_throws :
    getStudents corruptStore = (.threw .syntaxError, corruptStore) := rfl

/-! ## The directory invariant -/

theorem postStudents_wf (toLowerCase : String → String) (now : Nat) (body : Json)
    (accepted : Bool) (s : Store) (h : s.WF) :
    (postStudents toLowerCase now body accepted s).2.WF := by
  have hkey : validName (toString now ++ ".json") = true :=
    validName_record _ (toString_no_separator now)
  rcases hc : checkStudentExists toLowerCase (getProp body "first_name")
      (getProp body "last_name") "students" s with st | (_ | _)
  · simpa [postStudents, hc] using h
  · simp only [postStudents, hc, fs.writeFile, resolve_created]
    rcases hg : s.get? (toString now ++ ".json") with _ | (t | _ | _ | _) <;>
      cases accepted <;> simp only [hg] <;>
      first | exact h | exact Store.put_wf s _ _ h hkey
  · simpa [postStudents, hc] using h

theorem putStudent_wf (id : String) (body : Json) (accepted : Bool) (s : Store) (h : s.WF)
    (hid : '/' ∉ id.data) : (putStudent id body accepted s).2.WF := by
  have hkey : validName (id ++ ".json") = true := validName_record id hid
  simp only [putStudent, fs.stat, fs.writeFile, resolve_record s id hid]
  rcases hg : s.get? (id ++ ".json") with _ | (t | _ | _ | _) <;>
    cases accepted <;> simp only [hg] <;>
    first | exact h | exact Store.put_wf s _ _ h hkey

theorem deleteStudent_wf (id : String) (s : Store) (h : s.WF) (hid : '/' ∉ id.data) :
    (deleteStudent id s).2.WF := by
  simp only [deleteStudent, fs.unlink, resolve_record s id hid]
  rcases hg : s.get? (id ++ ".json") with _ | (t | _ | _ | _) <;>
    simp only [hg] <;>
    first | exact h | exact Store.erase_wf s _ h

/-- Every handler keeps the directory with one entry per valid file name, for an
identifier without path separator; the two GET handlers do not touch it at all. -/
theorem handlers_preserve_wf (toLowerCase : String → String) (s : Store) (h : s.WF)
    (now : Nat) (id : String) (hid : '/' ∉ id.data) (body : Json) (accepted : Bool) :
    (postStudents toLowerCase now body accepted s).2.WF ∧
    (putStudent id body accepted s).2.WF ∧
    (deleteStudent id s).2.WF ∧ (getStudent id s).2 = s ∧ (getStudents s).2 = s := by
  refine ⟨postStudents_wf toLowerCase now body accepted s h,
    putStudent_wf id body accepted s h hid, deleteStudent_wf id s h hid, ?_, rfl⟩
  unfold getStudent
  split <;> rfl

end StudentServer
